import Mathlib

/-!
Verification of the core simulation engine of the flat Calyx interpreter
(`src/interp/src/flatten/structures/environment/env.rs`).

The Rust code is shallowly embedded: machine state is passed explicitly,
fallible code returns `Except`, and Rust panics (`expect`, `unwrap`,
`todo!`, `unreachable!`) are modelled as a distinguished `panicked` error
constructor so that they remain observable and distinct from the
categorized interpreter errors that the code returns as `Result` values.

Supporting types that live outside the embedded file (`PortValue`,
`AssignedValue`, `Value`, the program-counter `get_next` successor
function, the primitive cell contract, and the secondary context's
definition-info lookup maps) are modelled from the spec, as noted on each
definition.
-/

/-- Modelled from the spec: the provenance (winner) of an assigned port
value. An `Assigned` value written by a guarded assignment records its
`AssignmentIdx` source; engine-asserted values (root `go`, group `go`,
component `done`, dangling-`done` resolution) are `Implicit`; primitive
cells write `Cell`-provenance values. Bit patterns are modelled as `Nat`. -/
inductive AssignmentWinner where
  | implicitW : AssignmentWinner
  | cellW : AssignmentWinner
  | assignW (idx : Nat) : AssignmentWinner
deriving DecidableEq, Repr

/-- Modelled from the spec: an assigned value is a bit pattern together
with its provenance. -/
structure AssignedValue where
  val : Nat
  winner : AssignmentWinner
deriving DecidableEq, Repr

/-- Modelled from the spec: a port holds `Undefined` (here `none`) or a
defined value with provenance (`Implicit` or `Assigned`); `as_option`
exposes the inner option. -/
def PortValue := Option AssignedValue

/-- A map from global port indices to their current values
(`PortMap = IndexedMap<GlobalPortIdx, PortValue>` with indices as `Nat`). -/
def PortMap := Nat → Option AssignedValue

/-- Functional update of one slot of a port map. -/
def updatePM (pm : PortMap) (i : Nat) (v : Option AssignedValue) : PortMap :=
  fun j => if j = i then v else pm j

/-- Modelled from the spec: `PortValue::as_bool` reads a defined port as a
boolean (width-1 read), returning `none` when the port is undefined. -/
def asBool (pv : Option AssignedValue) : Option Bool :=
  pv.map (fun av => decide (av.val ≠ 0))

/-- The `UpdateStatus` returned by port-map writes. -/
inductive UpdateStatus where
  | changed
  | unchanged
deriving DecidableEq, Repr

/-- Conversion of `UpdateStatus` to a boolean change flag. -/
def UpdateStatus.as_bool : UpdateStatus → Bool
  | .changed => true
  | .unchanged => false

/-- Rust panic messages that occur in the embedded code, reified so that
panics stay distinguishable from returned errors. -/
inductive PanicMsg where
  | unwrappedPrimitive
  | refPortUnbound
  | refCellUnbound
  | malformedInvoke
  | refPortSizeMismatch
  | refPortNotInstantiated
  | parOverflow
  | ifWithClause
  | whileWithClause
  | ifCondUndefined
  | whileCondUndefined
  | optionUnwrapNone
  | emptyNodeAssignments
  | nonLeafAssignments
  | nonLeafInLeafList
  | controlUnwrapNone
  | undefiningAssignment
deriving DecidableEq, Repr

/-- Errors of the embedded engine: `conflictingAssignments` models
`InterpreterError::FlatConflictingAssignments` (a categorized, returned
error); `panicked` models a Rust panic; `fuelExhausted` is an artifact of
embedding the source's unbounded loops with explicit fuel. -/
inductive SimError where
  | conflictingAssignments (a1 a2 : AssignedValue)
  | panicked (msg : PanicMsg)
  | fuelExhausted
deriving DecidableEq, Repr

/-- Modelled from the spec: `AssignedValue::has_conflict_with` holds when
the two assigned values carry different bit patterns. -/
def has_conflict_with (a b : AssignedValue) : Bool :=
  a.val != b.val

/-- Embedding of `PortMap::insert_val`: matching on the slot's current
value, an equal assigned value is `Unchanged`, a conflicting value is a
`ConflictingAssignments` error carrying both values, and otherwise the
slot is written and the result is `Changed`. The `&mut self` receiver plus
`Result` return is embedded as a pair of the post-state map and the
result. -/
def insert_val (pm : PortMap) (target : Nat) (v : AssignedValue) :
    PortMap × Except SimError UpdateStatus :=
  match pm target with
  | some t =>
      if t = v then (pm, .ok .unchanged)
      else if has_conflict_with t v then
        (pm, .error (.conflictingAssignments t v))
      else (updatePM pm target (some v), .ok .changed)
  | none => (updatePM pm target (some v), .ok .changed)

/-- Definition-relative port references (`PortRef`): local ports or
ref ports, as offsets. -/
inductive PortRef where
  | loc (n : Nat)
  | ref (n : Nat)
deriving DecidableEq, Repr

/-- Global port references (`GlobalPortRef`). -/
inductive GlobalPortRef where
  | port (n : Nat)
  | refP (n : Nat)
deriving DecidableEq, Repr

/-- Per-instance base indices (`BaseIndices`). -/
structure BaseIndices where
  port : Nat
  cell : Nat
  refCell : Nat
  refPort : Nat
deriving DecidableEq, Repr

/-- A cell ledger entry: a primitive, or a component frame with its base
indices and component definition id (`CellLedger`). -/
inductive CellLedger where
  | prim
  | comp (b : BaseIndices) (compId : Nat)
deriving DecidableEq, Repr

/-- Embedding of `ComponentLedger::convert_to_global_port` (also used for
`GlobalPortRef::from_local`, which performs the same base-offset
translation). -/
def convert_to_global_port (b : BaseIndices) : PortRef → GlobalPortRef
  | .loc l => .port (b.port + l)
  | .ref r => .refP (b.refPort + r)

/-- Embedding of `Simulator::lookup_global_port_id`: a ref-port slot that
has not been supplied panics. -/
def lookup_global_port_id (refPorts : Nat → Option Nat) :
    GlobalPortRef → Except SimError Nat
  | .port p => .ok p
  | .refP r =>
      match refPorts r with
      | some p => .ok p
      | none => .error (.panicked .refPortUnbound)

/-- Embedding of `CellLedger::unwrap_comp`: panics when the ledger holds a
primitive. -/
def unwrap_comp (cells : Nat → CellLedger) (c : Nat) :
    Except SimError (BaseIndices × Nat) :=
  match cells c with
  | .comp b cid => .ok (b, cid)
  | .prim => .error (.panicked .unwrappedPrimitive)

/-- Embedding of `Simulator::get_global_port_idx`. -/
def get_global_port_idx (cells : Nat → CellLedger)
    (refPorts : Nat → Option Nat) (p : PortRef) (comp : Nat) :
    Except SimError Nat := do
  let (b, _) ← unwrap_comp cells comp
  lookup_global_port_id refPorts (convert_to_global_port b p)

/-- The comparison operators of `Guard::Comp` (`calyx_ir::PortComp`). -/
inductive PortCompOp where
  | eq
  | neq
  | gt
  | lt
  | geq
  | leq
deriving DecidableEq, Repr

/-- Evaluation of a port comparison on bit patterns. -/
def PortCompOp.apply : PortCompOp → Nat → Nat → Bool
  | .eq, a, b => decide (a = b)
  | .neq, a, b => decide (a ≠ b)
  | .gt, a, b => decide (a > b)
  | .lt, a, b => decide (a < b)
  | .geq, a, b => decide (a ≥ b)
  | .leq, a, b => decide (a ≤ b)

/-- Guard trees (`Guard`); the arena of `GuardIdx` nodes in the context is
embedded as the tree it denotes. -/
inductive Guard where
  | tru
  | orG (a b : Guard)
  | andG (a b : Guard)
  | notG (n : Guard)
  | cmp (c : PortCompOp) (a b : PortRef)
  | port (p : PortRef)
deriving DecidableEq, Repr

/-- Embedding of `Simulator::evaluate_guard`. Value optionals are
propagated (an undefined operand makes the result undefined); the
component lookup and ref-port resolution panics of the source are carried
in the `Except` layer. -/
def evaluate_guard (cells : Nat → CellLedger) (refPorts : Nat → Option Nat)
    (pm : PortMap) : Guard → Nat → Except SimError (Option Bool)
  | .tru, _ => .ok (some true)
  | .orG a b, comp => do
      match ← evaluate_guard cells refPorts pm a comp with
      | none => .ok none
      | some g1 =>
        match ← evaluate_guard cells refPorts pm b comp with
        | none => .ok none
        | some g2 => .ok (some (g1 || g2))
  | .andG a b, comp => do
      match ← evaluate_guard cells refPorts pm a comp with
      | none => .ok none
      | some g1 =>
        match ← evaluate_guard cells refPorts pm b comp with
        | none => .ok none
        | some g2 => .ok (some (g1 && g2))
  | .notG n, comp => do
      match ← evaluate_guard cells refPorts pm n comp with
      | none => .ok none
      | some g => .ok (some (!g))
  | .cmp c a b, comp => do
      let (bs, _) ← unwrap_comp cells comp
      let ai ← lookup_global_port_id refPorts (convert_to_global_port bs a)
      let bi ← lookup_global_port_id refPorts (convert_to_global_port bs b)
      match pm ai, pm bi with
      | some av, some bv => .ok (some (PortCompOp.apply c av.val bv.val))
      | _, _ => .ok none
  | .port p, comp => do
      let (bs, _) ← unwrap_comp cells comp
      let pi ← lookup_global_port_id refPorts (convert_to_global_port bs p)
      .ok (asBool (pm pi))

/-- The list of port references occurring in a guard tree. -/
def guardPorts : Guard → List PortRef
  | .tru => []
  | .orG a b => guardPorts a ++ guardPorts b
  | .andG a b => guardPorts a ++ guardPorts b
  | .notG n => guardPorts n
  | .cmp _ a b => [a, b]
  | .port p => [p]

/-- Embedding of `Simulator::get_value`: resolve the port reference and
read the current port value. -/
def get_value (cells : Nat → CellLedger) (refPorts : Nat → Option Nat)
    (pm : PortMap) (p : PortRef) (comp : Nat) :
    Except SimError (Option AssignedValue) := do
  let i ← get_global_port_idx cells refPorts p comp
  .ok (pm i)

/-- An assignment record from the context
(`{ dst: PortRef, src: PortRef, guard: GuardIdx }`). -/
structure AssignDef where
  dst : PortRef
  src : PortRef
  guard : Guard

/-- A group record from the context: `go`/`done` hole local offsets and
the group's assignments (an `AssignmentRange`, embedded as the list of
assignment indices it contains). -/
structure GroupDef where
  go : Nat
  done : Nat
  assignments : List Nat

/-- Per-component context info: local offsets of the component `go` and
`done` signature ports, and the optional control root. -/
structure CompInfo where
  go : Nat
  done : Nat
  control : Option Nat

/-- A control point: a live cursor `{ comp, control_node_idx }`. -/
structure ControlPoint where
  comp : Nat
  node : Nat
deriving DecidableEq, Repr

/-- A definition-relative cell reference (`CellRef`): a local cell offset
or a ref-cell offset within the component definition. -/
inductive CellRef where
  | loc (n : Nat)
  | ref (n : Nat)
deriving DecidableEq, Repr

/-- An `Invoke` control record from the context
(`Invoke { cell, go, done, ref_cells, assignments, comb_group }`). -/
structure InvokeDef where
  cell : CellRef
  go : PortRef
  done : PortRef
  assignments : List Nat
  combGroup : Option Nat
  refCells : List (Nat × CellRef)

/-- Control nodes (`ControlNode`). -/
inductive ControlNode where
  | seq (stms : List Nat)
  | par (stms : List Nat)
  | ifC (condPort : PortRef) (condGroup : Option Nat) (tbranch fbranch : Nat)
  | whileC (condPort : PortRef) (condGroup : Option Nat) (body : Nat)
  | enable (group : Nat)
  | invoke (i : InvokeDef)
  | empty

/-- The result of `ComponentInfo::get_cell_info_idx`: a local cell
definition index or a ref-cell definition index into the secondary
context. -/
inductive CellInfoIdx where
  | loc (n : Nat)
  | ref (n : Nat)
deriving DecidableEq, Repr

/-- The immutable context slice used by the simulator: assignment records,
group records, combinational-group assignment ranges, component info, and
the control-node arena. The remaining fields are modelled from the spec:
context-provided lookups whose implementations live outside the embedded
file. `getNext` is the program-counter module's structural successor
`ControlPoint::get_next(point) -> Option<NewNode>`; `cellDef` /
`refCellDef` give the port-offset list of a (ref-)cell definition
(`ctx.secondary[idx].ports`); `refCellOffsetMap` is the per-component
`ref_cell_offset_map`; `getCellInfoIdx` is
`ComponentInfo::get_cell_info_idx`, resolving a definition-relative cell
reference to its definition-info index. -/
structure SimCtx where
  assign : Nat → AssignDef
  group : Nat → GroupDef
  combGroup : Nat → List Nat
  comp : Nat → CompInfo
  control : Nat → ControlNode
  getNext : ControlPoint → Option Nat
  cellDef : Nat → List Nat
  refCellDef : Nat → List Nat
  refCellOffsetMap : Nat → Nat → Nat
  getCellInfoIdx : Nat → CellRef → CellInfoIdx

/-- Embedding of `Environment::get_comp_go`. -/
def get_comp_go (ctx : SimCtx) (cells : Nat → CellLedger) (comp : Nat) :
    Except SimError Nat := do
  let (b, cid) ← unwrap_comp cells comp
  .ok (b.port + (ctx.comp cid).go)

/-- Embedding of `Environment::get_comp_done`. -/
def get_comp_done (ctx : SimCtx) (cells : Nat → CellLedger) (comp : Nat) :
    Except SimError Nat := do
  let (b, cid) ← unwrap_comp cells comp
  .ok (b.port + (ctx.comp cid).done)

/-- A scheduled-assignments entry
(`ScheduledAssignments { active_cell, assignments, interface_ports }`);
interface ports are the group's `go`/`done` hole local offsets. -/
structure Sched where
  activeCell : Nat
  assignments : List Nat
  interfacePorts : Option (Nat × Nat)

/-- The write step at the end of an assignment evaluation in
`simulate_combinational`: a defined source value is inserted via
`insert_val` with the assignment index as provenance (propagating a
conflict error), and an undefined source with a currently defined
destination hits the source's `todo!` panic. -/
def applyWrite (pm : PortMap) (hasCh : Bool) (dest : Nat) (assignIdx : Nat)
    (val : Option AssignedValue) : Except SimError (PortMap × Bool) :=
  match val with
  | some v =>
      let r := insert_val pm dest ⟨v.val, .assignW assignIdx⟩
      match r.2 with
      | .ok st => .ok (r.1, hasCh || st.as_bool)
      | .error e => .error e
  | none =>
      if (pm dest).isSome then .error (.panicked .undefiningAssignment)
      else .ok (pm, hasCh)

/-- The body run for a fired assignment in `simulate_combinational`:
resolve the source value and destination, apply the interface-`done` skip
rule (skip when the destination is not the entry's `done` port and that
port reads high or is undefined), and otherwise perform the write. -/
def firedStep (cells : Nat → CellLedger) (refPorts : Nat → Option Nat)
    (ctx : SimCtx) (doneI : Option Nat) (activeCell : Nat) (pm : PortMap)
    (hasCh : Bool) (assignIdx : Nat) : Except SimError (PortMap × Bool) := do
  let a := ctx.assign assignIdx
  let val ← get_value cells refPorts pm a.src activeCell
  let dest ← get_global_port_idx cells refPorts a.dst activeCell
  match doneI with
  | some d =>
      if dest ≠ d ∧ (asBool (pm d)).getD true then .ok (pm, hasCh)
      else applyWrite pm hasCh dest assignIdx val
  | none => applyWrite pm hasCh dest assignIdx val

/-- Processing of one assignment inside a convergence pass: the guard is
evaluated (an undefined guard counts as false); when the entry carries a
group `go`, the assignment fires only if both the group `go` and the
active component's `go` read high, and with no interface ports it fires
whenever its guard holds. -/
def processAssign (cells : Nat → CellLedger) (refPorts : Nat → Option Nat)
    (ctx : SimCtx) (goI doneI : Option Nat) (compGo : Nat)
    (activeCell : Nat) (st : PortMap × Bool) (assignIdx : Nat) :
    Except SimError (PortMap × Bool) := do
  let a := ctx.assign assignIdx
  let g ← evaluate_guard cells refPorts st.1 a.guard activeCell
  if g.getD false &&
      (match goI with
       | some gp =>
           (asBool (st.1 gp)).getD false && (asBool (st.1 compGo)).getD false
       | none => true) then
    firedStep cells refPorts ctx doneI activeCell st.1 st.2 assignIdx
  else
    .ok st

/-- Processing of one scheduled entry inside a convergence pass: resolve
the entry's global `go`/`done` interface ports and the active component's
`go`, then fold the assignment range through `processAssign`. -/
def processSched (cells : Nat → CellLedger) (refPorts : Nat → Option Nat)
    (ctx : SimCtx) (st : PortMap × Bool) (s : Sched) :
    Except SimError (PortMap × Bool) := do
  let (bs, _) ← unwrap_comp cells s.activeCell
  let goI := s.interfacePorts.map (fun x => bs.port + x.1)
  let doneI := s.interfacePorts.map (fun x => bs.port + x.2)
  let compGo ← get_comp_go ctx cells s.activeCell
  s.assignments.foldlM
    (processAssign cells refPorts ctx goI doneI compGo s.activeCell) st

/-- The assignment-evaluation stage of one convergence pass: every
scheduled entry is processed in order, starting from a cleared change
flag. -/
def processBundle (cells : Nat → CellLedger) (refPorts : Nat → Option Nat)
    (ctx : SimCtx) (bundle : List Sched) (pm : PortMap) :
    Except SimError (PortMap × Bool) :=
  bundle.foldlM (processSched cells refPorts ctx) (pm, false)

/-- The primitive contract, an external collaborator: `execComb` is the
fold of `exec_comb` over every primitive cell (returning the OR of their
change flags) and `execCycle` is the per-cycle `exec_cycle` sweep. -/
structure Prims where
  execComb : PortMap → Except SimError (PortMap × Bool)
  execCycle : PortMap → Except SimError PortMap

/-- The dangling-`done` resolution at the end of a converged pass: every
tracked interface `done` port that is still undefined is set to
`Implicit(0)` and the change flag is raised so convergence continues. -/
def danglingDone (donePorts : List Nat) (pm : PortMap) : PortMap × Bool :=
  donePorts.foldl
    (fun (st : PortMap × Bool) d =>
      if (st.1 d).isNone then
        (updatePM st.1 d (some ⟨0, .implicitW⟩), true)
      else st)
    (pm, false)

/-- One iteration of the `while has_changed` loop of
`simulate_combinational`: evaluate all scheduled assignments, run the
primitives' combinational updates, and if nothing changed run the
dangling-`done` resolution. Returns the new port map and the pass's
change flag. -/
def convergencePass (cells : Nat → CellLedger) (refPorts : Nat → Option Nat)
    (ctx : SimCtx) (prims : Prims) (donePorts : List Nat)
    (bundle : List Sched) (pm : PortMap) :
    Except SimError (PortMap × Bool) := do
  let (pm1, ch1) ← processBundle cells refPorts ctx bundle pm
  let (pm2, chP) ← prims.execComb pm1
  let ch := ch1 || chP
  if ch then .ok (pm2, true)
  else .ok (danglingDone donePorts pm2)

/-- The convergence loop, with explicit fuel standing in for the source's
unbounded `while has_changed` loop: passes repeat until one reports no
change. -/
def simCombLoop (cells : Nat → CellLedger) (refPorts : Nat → Option Nat)
    (ctx : SimCtx) (prims : Prims) (donePorts : List Nat)
    (bundle : List Sched) : Nat → PortMap → Except SimError PortMap
  | 0, _ => .error .fuelExhausted
  | fuel + 1, pm => do
      let (pm', ch) ←
        convergencePass cells refPorts ctx prims donePorts bundle pm
      if ch then
        simCombLoop cells refPorts ctx prims donePorts bundle fuel pm'
      else .ok pm'

/-- The collection of tracked interface `done` ports of a scheduled
bundle (the `done_ports` vector of `simulate_combinational`). -/
def done_ports_of (cells : Nat → CellLedger) :
    List Sched → Except SimError (List Nat)
  | [] => .ok []
  | s :: rest =>
      match s.interfacePorts with
      | some ip => do
          let (bs, _) ← unwrap_comp cells s.activeCell
          let tail ← done_ports_of cells rest
          .ok ((bs.port + ip.2) :: tail)
      | none => done_ports_of cells rest

/-- Embedding of `Simulator::simulate_combinational`. -/
def simulate_combinational (cells : Nat → CellLedger)
    (refPorts : Nat → Option Nat) (ctx : SimCtx) (prims : Prims)
    (fuel : Nat) (bundle : List Sched) (pm : PortMap) :
    Except SimError PortMap := do
  let dps ← done_ports_of cells bundle
  simCombLoop cells refPorts ctx prims dps bundle fuel pm


/-- Association-list lookup, modelling `HashMap::get`. -/
def alistLookup (m : List (ControlPoint × Nat)) (k : ControlPoint) :
    Option Nat :=
  match m with
  | [] => none
  | (k', v) :: rest => if k' = k then some v else alistLookup rest k

/-- Association-list membership, modelling `HashMap::contains_key`. -/
def alistContains (m : List (ControlPoint × Nat)) (k : ControlPoint) : Bool :=
  (alistLookup m k).isSome

/-- Association-list insertion (replacing any existing binding),
modelling `HashMap::insert`. -/
def alistInsert (m : List (ControlPoint × Nat)) (k : ControlPoint)
    (v : Nat) : List (ControlPoint × Nat) :=
  match m with
  | [] => [(k, v)]
  | (k', v') :: rest =>
      if k' = k then (k, v) :: rest else (k', v') :: alistInsert rest k v

/-- Association-list removal, modelling `HashMap::remove`. -/
def alistRemove (m : List (ControlPoint × Nat)) (k : ControlPoint) :
    List (ControlPoint × Nat) :=
  match m with
  | [] => []
  | (k', v') :: rest =>
      if k' = k then rest else (k', v') :: alistRemove rest k

/-- Global cell references (`GlobalCellRef`). -/
inductive GlobalCellRef where
  | cell (n : Nat)
  | refC (n : Nat)
deriving DecidableEq, Repr

/-- Embedding of `ComponentLedger::convert_to_global_cell`: the same
base-offset translation as ports, on the cell and ref-cell bases. -/
def convert_to_global_cell (b : BaseIndices) : CellRef → GlobalCellRef
  | .loc l => .cell (b.cell + l)
  | .ref r => .refC (b.refCell + r)

/-- Embedding of `Simulator::lookup_global_cell_id`: a ref-cell slot that
has not been supplied panics. -/
def lookup_global_cell_id (refCells : Nat → Option Nat) :
    GlobalCellRef → Except SimError Nat
  | .cell c => .ok c
  | .refC r =>
      match refCells r with
      | some c => .ok c
      | none => .error (.panicked .refCellUnbound)

/-- Embedding of `Simulator::get_global_cell_idx`. -/
def get_global_cell_idx (cells : Nat → CellLedger)
    (refCells : Nat → Option Nat) (c : CellRef) (comp : Nat) :
    Except SimError Nat := do
  let (b, _) ← unwrap_comp cells comp
  lookup_global_cell_id refCells (convert_to_global_cell b c)

/-- The `.as_comp().expect("malformed invoke?")` lookup of the invoked
child cell in the ref-cell plumbing. -/
def as_comp_expect (cells : Nat → CellLedger) (c : Nat) :
    Except SimError (BaseIndices × Nat) :=
  match cells c with
  | .comp b cid => .ok (b, cid)
  | .prim => .error (.panicked .malformedInvoke)

/-- Functional update of one slot of a ref-cell or ref-port map. -/
def updateRef (m : Nat → Option Nat) (i : Nat) (v : Option Nat) :
    Nat → Option Nat :=
  fun j => if j = i then v else m j

/-- The port-binding loop of `intialize_ref_cells`' `Ref(r)` arm: each
parent ref-port slot is read (an unbound slot is the source's
`.expect("ref port not instantiated, this is a bug")` panic) and its
resolved global port copied into the child's ref-port slot. -/
def bindRefPortsRef (pb cb : BaseIndices) :
    List (Nat × Nat) → (Nat → Option Nat) →
    Except SimError (Nat → Option Nat)
  | [], rp => .ok rp
  | (dest, source) :: rest, rp =>
      match rp (pb.refPort + source) with
      | some actual =>
          bindRefPortsRef pb cb rest
            (updateRef rp (cb.refPort + dest) (some actual))
      | none => .error (.panicked .refPortNotInstantiated)

/-- The per-binding loop of `intialize_ref_cells`: resolve the supplied
cell against the current ref-cell map, set the child's ref-cell slot,
then bind every ref port of the callee's ref-cell definition, from a
local (`Local`) or forwarded (`Ref`) parent cell. The `assert_eq!` on
the two port-list sizes is a panic when it fails. -/
def initRefCellLoop (ctx : SimCtx) (cells : Nat → CellLedger)
    (pb : BaseIndices) (pcid : Nat) (cb : BaseIndices) (ccid : Nat)
    (parentComp : Nat) :
    List (Nat × CellRef) → (Nat → Option Nat) → (Nat → Option Nat) →
    Except SimError ((Nat → Option Nat) × (Nat → Option Nat))
  | [], rc, rp => .ok (rc, rp)
  | (offset, cellRef) :: rest, rc, rp => do
      let actual ← get_global_cell_idx cells rc cellRef parentComp
      let rc' := updateRef rc (cb.refCell + offset) (some actual)
      let childPorts := ctx.refCellDef (ctx.refCellOffsetMap ccid offset)
      match ctx.getCellInfoIdx pcid cellRef with
      | .loc l =>
          let srcPorts := ctx.cellDef l
          if childPorts.length = srcPorts.length then
            let rp' := (childPorts.zip srcPorts).foldl
              (fun m pr =>
                updateRef m (cb.refPort + pr.1) (some (pb.port + pr.2))) rp
            initRefCellLoop ctx cells pb pcid cb ccid parentComp rest rc' rp'
          else .error (.panicked .refPortSizeMismatch)
      | .ref r =>
          let srcPorts := ctx.refCellDef r
          if childPorts.length = srcPorts.length then do
            let rp' ← bindRefPortsRef pb cb (childPorts.zip srcPorts) rp
            initRefCellLoop ctx cells pb pcid cb ccid parentComp rest rc' rp'
          else .error (.panicked .refPortSizeMismatch)

/-- Embedding of `Simulator::intialize_ref_cells` (the source's
spelling): a no-op when the invoke binds no ref cells; otherwise resolve
the parent and child ledgers and run the binding loop. Returns the two
updated ref maps — the routine touches no other state. -/
def intialize_ref_cells (ctx : SimCtx) (cells : Nat → CellLedger)
    (rc rp : Nat → Option Nat) (parentComp : Nat) (i : InvokeDef) :
    Except SimError ((Nat → Option Nat) × (Nat → Option Nat)) :=
  if i.refCells.isEmpty then .ok (rc, rp)
  else do
    let (pb, pcid) ← unwrap_comp cells parentComp
    let childComp ← get_global_cell_idx cells rc i.cell parentComp
    let (cb, ccid) ← as_comp_expect cells childComp
    initRefCellLoop ctx cells pb pcid cb ccid parentComp i.refCells rc rp

/-- The per-binding loop of `cleanup_ref_cells`: clear the child's
ref-cell slot and every ref-port slot of its ref-cell definition. -/
def cleanupRefCellLoop (ctx : SimCtx) (cb : BaseIndices) (ccid : Nat) :
    List (Nat × CellRef) → (Nat → Option Nat) → (Nat → Option Nat) →
    (Nat → Option Nat) × (Nat → Option Nat)
  | [], rc, rp => (rc, rp)
  | (offset, _) :: rest, rc, rp =>
      let rc' := updateRef rc (cb.refCell + offset) none
      let ports := ctx.refCellDef (ctx.refCellOffsetMap ccid offset)
      let rp' := ports.foldl (fun m q => updateRef m (cb.refPort + q) none) rp
      cleanupRefCellLoop ctx cb ccid rest rc' rp'

/-- Embedding of `Simulator::cleanup_ref_cells`: resolve the invoked
child cell (the source has no empty-binding early return here) and clear
every bound ref cell and its ref ports. Returns the two updated ref
maps — the routine touches no other state. -/
def cleanup_ref_cells (ctx : SimCtx) (cells : Nat → CellLedger)
    (rc rp : Nat → Option Nat) (parentComp : Nat) (i : InvokeDef) :
    Except SimError ((Nat → Option Nat) × (Nat → Option Nat)) := do
  let childComp ← get_global_cell_idx cells rc i.cell parentComp
  let (cb, ccid) ← as_comp_expect cells childComp
  .ok (cleanupRefCellLoop ctx cb ccid i.refCells rc rp)

/-- The fixed pieces of a simulation: context, cell ledgers (never
mutated after layout), and the primitive contract. -/
structure Machine where
  ctx : SimCtx
  cells : Nat → CellLedger
  prims : Prims

/-- The mutable state threaded through one `step`'s `retain_mut` walk:
the environment's port/ref maps and program-counter fields together with
the scratch buffers (`leaf_nodes`, `set_done`, `new_nodes`). -/
structure StepSt where
  ports : PortMap
  refCells : Nat → Option Nat
  refPorts : Nat → Option Nat
  parMap : List (ControlPoint × Nat)
  withMap : List (ControlPoint × Nat)
  leafNodes : List ControlPoint
  setDone : List Nat
  newNodes : List ControlPoint

/-- Embedding of `ControlPoint::mutate_into_next`: move to the structural
successor when one exists, reporting whether the point was retained. -/
def mutate_into_next (ctx : SimCtx) (node : ControlPoint) :
    ControlPoint × Bool :=
  match ctx.getNext node with
  | some n => ({ node with node := n }, true)
  | none => (node, false)

/-- The condition-port read shared by the `If` and `While` arms of
`step`: translate the local condition port, chase a ref port if needed,
and panic (with the arm's message) when the port is undefined. -/
def read_cond_port (cells : Nat → CellLedger) (refPorts : Nat → Option Nat)
    (pm : PortMap) (msg : PanicMsg) (condPort : PortRef) (comp : Nat) :
    Except SimError Bool := do
  let (bs, _) ← unwrap_comp cells comp
  match convert_to_global_port bs condPort with
  | .port p =>
      match asBool (pm p) with
      | some b => .ok b
      | none => .error (.panicked msg)
  | .refP r =>
      match refPorts r with
      | some idx =>
          match asBool (pm idx) with
          | some b => .ok b
          | none => .error (.panicked msg)
      | none => .error (.panicked .optionUnwrapNone)

/-- Whether a control node index denotes a `Par` node (the
`matches!(..., ControlNode::Par(_))` test in `step`'s completion
check). -/
def isParNode (ctx : SimCtx) (node : ControlPoint) : Bool :=
  match ctx.control node.node with
  | .par _ => true
  | _ => false

/-- The dispatch on a control node inside `step`'s `retain_mut` closure,
after the component go/done gate. Returns the (possibly rewritten)
control point, the arm's retain flag, and the updated state. -/
def stepNodeArm (M : Machine) (fuel : Nat) (st : StepSt)
    (node : ControlPoint) : Except SimError (ControlPoint × Bool × StepSt) :=
  match M.ctx.control node.node with
  | .seq stms =>
      match stms with
      | next :: _ => .ok ({ node with node := next }, true, st)
      | [] =>
          let (n', rb) := mutate_into_next M.ctx node
          .ok (n', rb, st)
  | .par stms =>
      match alistLookup st.parMap node with
      | some count =>
          let count' := count - 1
          if count' = 0 then
            let st' := { st with parMap := alistRemove st.parMap node }
            let (n', rb) := mutate_into_next M.ctx node
            .ok (n', rb, st')
          else
            .ok (node, false,
              { st with parMap := alistInsert st.parMap node count' })
      | none =>
          if stms.length ≤ 65535 then
            .ok (node, false,
              { st with
                parMap := alistInsert st.parMap node stms.length,
                newNodes := st.newNodes ++
                  stms.map (fun x => { node with node := x }) })
          else .error (.panicked .parOverflow)
  | .ifC condPort condGroup tbranch fbranch => do
      let containsNode := alistContains st.withMap node
      let st1 ←
        match condGroup with
        | some cg =>
            if ¬containsNode then
              let sched : Sched := ⟨node.comp, M.ctx.combGroup cg, none⟩
              match simulate_combinational M.cells st.refPorts M.ctx M.prims
                  fuel [sched] st.ports with
              | .ok pm' =>
                  pure { st with
                    withMap := alistInsert st.withMap node cg, ports := pm' }
              | .error _ => .error (.panicked .ifWithClause)
            else pure st
        | none => pure st
      if condGroup.isSome ∧ containsNode then
        let st2 := { st1 with withMap := alistRemove st1.withMap node }
        let (n', rb) := mutate_into_next M.ctx node
        .ok (n', rb, st2)
      else do
        let res ← read_cond_port M.cells st1.refPorts st1.ports
          .ifCondUndefined condPort node.comp
        let target := if res then tbranch else fbranch
        .ok ({ node with node := target }, true, st1)
  | .whileC condPort condGroup body => do
      let st1 ←
        match condGroup with
        | some cg =>
            let gw :=
              match alistLookup st.withMap node with
              | some g0 => (g0, st.withMap)
              | none => (cg, alistInsert st.withMap node cg)
            let sched : Sched := ⟨node.comp, M.ctx.combGroup gw.1, none⟩
            match simulate_combinational M.cells st.refPorts M.ctx M.prims
                fuel [sched] st.ports with
            | .ok pm' => pure { st with withMap := gw.2, ports := pm' }
            | .error _ => .error (.panicked .whileWithClause)
        | none => pure st
      let res ← read_cond_port M.cells st1.refPorts st1.ports
        .whileCondUndefined condPort node.comp
      if res then .ok ({ node with node := body }, true, st1)
      else
        let st2 :=
          if condGroup.isSome then
            { st1 with withMap := alistRemove st1.withMap node }
          else st1
        let (n', rb) := mutate_into_next M.ctx node
        .ok (n', rb, st2)
  | .empty =>
      let (n', rb) := mutate_into_next M.ctx node
      .ok (n', rb, st)
  | .enable g => do
      let doneLocal := (M.ctx.group g).done
      let (bs, _) ← unwrap_comp M.cells node.comp
      let doneIdx := bs.port + doneLocal
      if ¬(asBool (st.ports doneIdx)).getD false then
        .ok (node, true, { st with leafNodes := st.leafNodes ++ [node] })
      else
        let (n', rb) := mutate_into_next M.ctx node
        .ok (n', rb, st)
  | .invoke i => do
      let doneIdx ← get_global_port_idx M.cells st.refPorts i.done node.comp
      let st1 :=
        match i.combGroup with
        | some cg =>
            if ¬alistContains st.withMap node then
              { st with withMap := alistInsert st.withMap node cg }
            else st
        | none => st
      if ¬(asBool (st1.ports doneIdx)).getD false then
        .ok (node, true, { st1 with leafNodes := st1.leafNodes ++ [node] })
      else do
        let (rc, rp) ← cleanup_ref_cells M.ctx M.cells st1.refCells
          st1.refPorts node.comp i
        let st2 := { st1 with refCells := rc, refPorts := rp }
        let st3 :=
          if i.combGroup.isSome then
            { st2 with withMap := alistRemove st2.withMap node }
          else st2
        let (n', rb) := mutate_into_next M.ctx node
        .ok (n', rb, st3)

/-- The whole `retain_mut` closure body for one control point: skip nodes
whose component `go` is low or `done` is high, dispatch on the node, and
run the completion check that raises the component's `done` and re-seeds
its control root. Returns `some` kept point or `none` for a dropped
one. -/
def stepNode (M : Machine) (fuel : Nat) (st : StepSt)
    (node : ControlPoint) : Except SimError (Option ControlPoint × StepSt) := do
  let compGo ← get_comp_go M.ctx M.cells node.comp
  let compDone ← get_comp_done M.ctx M.cells node.comp
  if ¬(asBool (st.ports compGo)).getD false ∨
      (asBool (st.ports compDone)).getD false then
    .ok (some node, st)
  else do
    let (node', rb, st') ← stepNodeArm M fuel st node
    if ¬rb ∧ M.ctx.getNext node' = none ∧
        (¬isParNode M.ctx node' ∨ ¬alistContains st'.parMap node') then do
      let d ← get_comp_done M.ctx M.cells node'.comp
      let (_, cid) ← unwrap_comp M.cells node'.comp
      match (M.ctx.comp cid).control with
      | some c =>
          .ok (some { node' with node := c },
            { st' with setDone := st'.setDone ++ [d] })
      | none => .error (.panicked .controlUnwrapNone)
    else .ok (if rb then some node' else none, st')

/-- The fold of `stepNode` over the program counter's control points,
collecting the retained points in order. -/
def stepNodes (M : Machine) (fuel : Nat) :
    List ControlPoint → StepSt →
    Except SimError (List ControlPoint × StepSt)
  | [], st => .ok ([], st)
  | n :: rest, st => do
      let (kept, st') ← stepNode M fuel st n
      let (tail, st'') ← stepNodes M fuel rest st'
      match kept with
      | some k => .ok (k :: tail, st'')
      | none => .ok (tail, st'')

/-- Embedding of `Simulator::get_assignments`: one entry per leaf node
(group enables supply interface ports, invokes do not), chained with the
continuous assignments and the active `with`-map combinational groups. -/
def get_assignments (ctx : SimCtx) (leafNodes : List ControlPoint)
    (contAssigns : List (Nat × List Nat))
    (withMap : List (ControlPoint × Nat)) : Except SimError (List Sched) := do
  let leaves ← leafNodes.mapM (fun n =>
    match ctx.control n.node with
    | .enable e =>
        let g := ctx.group e
        .ok (⟨n.comp, g.assignments, some (g.go, g.done)⟩ : Sched)
    | .invoke i => .ok (⟨n.comp, i.assignments, none⟩ : Sched)
    | .empty => .error (.panicked .emptyNodeAssignments)
    | _ => .error (.panicked .nonLeafAssignments))
  .ok (leaves ++ contAssigns.map (fun x => ⟨x.1, x.2, none⟩) ++
    withMap.map (fun p => ⟨p.1.comp, ctx.combGroup p.2, none⟩))

/-- Embedding of `Simulator::set_root_go_high`: the root component is
cell 0; its `go` port is set to `Implicit(1)`. -/
def set_root_go_high (ctx : SimCtx) (cells : Nat → CellLedger)
    (pm : PortMap) : Except SimError PortMap := do
  let (bs, cid) ← unwrap_comp cells 0
  .ok (updatePM pm (bs.port + (ctx.comp cid).go) (some ⟨1, .implicitW⟩))

/-- The loop over this cycle's leaf nodes in `step`: raise each leaf
group's `go` hole (enables) or invoke `go` port (invokes, additionally
installing the ref-cell bindings); a non-leaf in the list is the source's
`unreachable!`. -/
def leafGoLoop (M : Machine) :
    List ControlPoint → PortMap → (Nat → Option Nat) → (Nat → Option Nat) →
    Except SimError (PortMap × (Nat → Option Nat) × (Nat → Option Nat))
  | [], pm, rc, rp => .ok (pm, rc, rp)
  | n :: rest, pm, rc, rp =>
      match M.ctx.control n.node with
      | .enable e => do
          let goLocal := (M.ctx.group e).go
          let (bs, _) ← unwrap_comp M.cells n.comp
          let pm' := updatePM pm (bs.port + goLocal) (some ⟨1, .implicitW⟩)
          leafGoLoop M rest pm' rc rp
      | .invoke i => do
          let goIdx ← get_global_port_idx M.cells rp i.go n.comp
          let pm' := updatePM pm goIdx (some ⟨1, .implicitW⟩)
          let (rc', rp') ← intialize_ref_cells M.ctx M.cells rc rp n.comp i
          leafGoLoop M rest pm' rc' rp'
      | _ => .error (.panicked .nonLeafInLeafList)

/-- The environment state that persists across steps. -/
structure Env where
  ports : PortMap
  refCells : Nat → Option Nat
  refPorts : Nat → Option Nat
  pcVec : List ControlPoint
  parMap : List (ControlPoint × Nat)
  withMap : List (ControlPoint × Nat)
  contAssigns : List (Nat × List Nat)

/-- Embedding of `Simulator::step`: advance every control point, restore
the program-counter fields and append the new `par` children, undefine
all ports, re-assert the root `go`, raise the scheduled component `done`
ports, raise the leaf interface signals, converge the scheduled bundle,
and tick every primitive's clocked update. -/
def step (M : Machine) (fuel : Nat) (env : Env) : Except SimError Env := do
  let st0 : StepSt :=
    ⟨env.ports, env.refCells, env.refPorts, env.parMap, env.withMap,
      [], [], []⟩
  let (retained, st1) ← stepNodes M fuel env.pcVec st0
  let pcVec' := retained ++ st1.newNodes
  let pm0 : PortMap := fun _ => none
  let pm1 ← set_root_go_high M.ctx M.cells pm0
  let pm2 := st1.setDone.foldl
    (fun pm p => updatePM pm p (some ⟨1, .implicitW⟩)) pm1
  let (pm3, rc, rp) ← leafGoLoop M st1.leafNodes pm2 st1.refCells st1.refPorts
  let bundle ← get_assignments M.ctx st1.leafNodes env.contAssigns st1.withMap
  let pm4 ← simulate_combinational M.cells rp M.ctx M.prims fuel bundle pm3
  let pm5 ← M.prims.execCycle pm4
  .ok { env with
    ports := pm5, refCells := rc, refPorts := rp,
    pcVec := pcVec', parMap := st1.parMap, withMap := st1.withMap }

/-- Embedding of `Environment::get_root_done`: the `done` port of cell
0. -/
def get_root_done (ctx : SimCtx) (cells : Nat → CellLedger) :
    Except SimError Nat :=
  get_comp_done ctx cells 0

/-- Embedding of `Simulator::is_done`: the root `done` port read as a
boolean, an undefined port counting as not done. -/
def is_done (M : Machine) (env : Env) : Except SimError Bool := do
  let rd ← get_root_done M.ctx M.cells
  .ok ((asBool (env.ports rd)).getD false)

/-- Embedding of `Simulator::run_program`: step until the root's `done`
is high. The loop's fuel stands in for the source's unbounded `while`;
`sfuel` is the fuel handed to each `step` for its internal convergence
loops. -/
def run_program (M : Machine) (sfuel : Nat) :
    Nat → Env → Except SimError Env
  | 0, env => do
      let d ← is_done M env
      if d then .ok env else .error .fuelExhausted
  | fuel + 1, env => do
      let d ← is_done M env
      if d then .ok env
      else do
        let env' ← step M sfuel env
        run_program M sfuel fuel env'

mutual

/-- A cell definition inside a component: a primitive with a port count,
or a nested sub-component. The context's component DAG is embedded as the
definition tree it denotes for one instantiation. -/
inductive CellProto where
  | primC (nPorts : Nat)
  | sub (c : CompDef)

/-- A component definition as the layout pass consumes it: signature port
count, one swap flag per group (true when the definition declares `done`
before `go`), cell definitions in order, ref-cell port counts, and
whether the component has continuous assignments. Definition-local
offsets are modelled from the spec's layout-order invariant: signature
ports first, then each group's two hole ports, then cell ports (a
sub-component's recursive layout occupying its whole slice), then ref
cells and ref ports. -/
inductive CompDef where
  | mk (nSig : Nat) (groups : List Bool) (cells : List CellProto)
      (refCells : List Nat) (hasCont : Bool)

end

/-- Signature port count of a component definition. -/
def CompDef.nSig : CompDef → Nat
  | .mk n _ _ _ _ => n

/-- Group swap flags of a component definition. -/
def CompDef.groups : CompDef → List Bool
  | .mk _ g _ _ _ => g

/-- Cell definitions of a component definition. -/
def CompDef.cellDefs : CompDef → List CellProto
  | .mk _ _ c _ _ => c

/-- Ref-cell port counts of a component definition. -/
def CompDef.refCellDefs : CompDef → List Nat
  | .mk _ _ _ r _ => r

/-- Whether the component has continuous assignments. -/
def CompDef.hasCont : CompDef → Bool
  | .mk _ _ _ _ h => h

mutual

/-- Total number of port entries a component instance occupies in the
global port map. -/
def CompDef.totalPorts : CompDef → Nat
  | .mk nSig groups cells _ _ =>
      nSig + 2 * groups.length + cellsPorts cells

/-- Total port entries of a cell list. -/
def cellsPorts : List CellProto → Nat
  | [] => 0
  | .primC n :: rest => n + cellsPorts rest
  | .sub c :: rest => c.totalPorts + cellsPorts rest

end

mutual

/-- Total number of cell-ledger entries a component instance's body
pushes (not counting the instance's own ledger). -/
def CompDef.totalCells : CompDef → Nat
  | .mk _ _ cells _ _ => cellsCells cells

/-- Total cell-ledger entries of a cell list. -/
def cellsCells : List CellProto → Nat
  | [] => 0
  | .primC _ :: rest => 1 + cellsCells rest
  | .sub c :: rest => 1 + c.totalCells + cellsCells rest

end

mutual

/-- Total ref-cell slots a component instance pushes. -/
def CompDef.totalRefCells : CompDef → Nat
  | .mk _ _ cells refCells _ =>
      cellsRefCells cells + refCells.length

/-- Total ref-cell slots of a cell list. -/
def cellsRefCells : List CellProto → Nat
  | [] => 0
  | .primC _ :: rest => cellsRefCells rest
  | .sub c :: rest => c.totalRefCells + cellsRefCells rest

end

mutual

/-- Total ref-port slots a component instance pushes. -/
def CompDef.totalRefPorts : CompDef → Nat
  | .mk _ _ cells refCells _ =>
      cellsRefPorts cells + refCells.sum

/-- Total ref-port slots of a cell list. -/
def cellsRefPorts : List CellProto → Nat
  | [] => 0
  | .primC _ :: rest => cellsRefPorts rest
  | .sub c :: rest => c.totalRefPorts + cellsRefPorts rest

end

/-- The layout-time environment state: the dense maps under
construction. Port, ref-cell and ref-port entries are all initialized to
undefined or `None`, so only the push counts are tracked; the cell map
holds the actual ledgers because layout reads base indices back out of
it. -/
structure LState where
  ports : Nat
  cells : List CellLedger
  refCells : Nat
  refPorts : Nat
  pcCont : List Nat

/-- Embedding of `CellLedger::new_comp`: record the next free index of
each map, with the cell base one past the current count because the
component's own ledger is pushed immediately afterwards. -/
def new_comp (cid : Nat) (st : LState) : CellLedger :=
  .comp ⟨st.ports, st.cells.length + 1, st.refCells, st.refPorts⟩ cid

/-- The base indices recorded for a laid-out cell, when it is a
component. -/
def basesAt (st : LState) (comp : Nat) : Option BaseIndices :=
  match st.cells.get? comp with
  | some (.comp b _) => some b
  | _ => none

/-- The signature-port loop of `layout_component`: push one undefined
port per signature port and check `index_bases + sig_port == idx` for
each. -/
def layoutSig (b : BaseIndices) : Nat → Nat → LState → LState × Bool
  | 0, _, st => (st, true)
  | m + 1, off, st =>
      let idx := st.ports
      let ok := idx == b.port + off
      let (st', rest) := layoutSig b m (off + 1) { st with ports := st.ports + 1 }
      (st', ok && rest)

/-- The group-hole loop of `layout_component`: push the two hole ports of
each group and check them against the definition-declared `go`/`done`
offsets, covering both declaration orders exactly as the source's two
assert cases do. -/
def layoutGroups (b : BaseIndices) (nSig : Nat) :
    List Bool → Nat → LState → LState × Bool
  | [], _, st => (st, true)
  | swap :: rest, i, st =>
      let g := st.ports
      let d := st.ports + 1
      let st1 := { st with ports := st.ports + 2 }
      let goLocal := match swap with
        | true => nSig + 2 * i + 1
        | false => nSig + 2 * i
      let doneLocal := match swap with
        | true => nSig + 2 * i
        | false => nSig + 2 * i + 1
      let ok :=
        if goLocal < doneLocal then
          (d == b.port + doneLocal) && (g == b.port + goLocal)
        else
          (g == b.port + doneLocal) && (d == b.port + goLocal)
      let (st', restOk) := layoutGroups b nSig rest (i + 1) st1
      (st', ok && restOk)

/-- The port loop for a primitive cell in `layout_component`: push each
port and check it against the re-read parent bases plus the
definition-local offset. -/
def layoutPrimPorts (comp : Nat) : Nat → Nat → LState → LState × Bool
  | 0, _, st => (st, true)
  | m + 1, off, st =>
      let idx := st.ports
      let ok :=
        match basesAt st comp with
        | some b => idx == b.port + off
        | none => false
      let (st', rest) :=
        layoutPrimPorts comp m (off + 1) { st with ports := st.ports + 1 }
      (st', ok && rest)

/-- The ref-port loop for one ref cell in `layout_component`. -/
def layoutRefPorts (comp : Nat) : Nat → Nat → LState → LState × Bool
  | 0, _, st => (st, true)
  | m + 1, off, st =>
      let idx := st.refPorts
      let ok :=
        match basesAt st comp with
        | some b => idx == b.refPort + off
        | none => false
      let (st', rest) :=
        layoutRefPorts comp m (off + 1) { st with refPorts := st.refPorts + 1 }
      (st', ok && rest)

/-- The ref-cell loop of `layout_component`: for each ref cell push its
ref ports then the ref-cell slot, checking each pushed index against the
re-read bases plus the local offset. -/
def layoutRefList (comp : Nat) :
    List Nat → Nat → Nat → LState → LState × Bool
  | [], _, _, st => (st, true)
  | k :: rest, rpOff, rcOff, st =>
      let (st1, okP) := layoutRefPorts comp k rpOff st
      let idx := st1.refCells
      let okC :=
        match basesAt st1 comp with
        | some b => idx == b.refCell + rcOff
        | none => false
      let st2 := { st1 with refCells := st1.refCells + 1 }
      let (st', restOk) := layoutRefList comp rest (rpOff + k) (rcOff + 1) st2
      (st', okP && okC && restOk)

mutual

/-- Embedding of `Environment::layout_component`: lay out the signature,
the group holes, the cells (recursing into sub-components), and the
ref cells, conjoining every `debug_assert_eq!` check of the source as a
boolean. A non-component ledger at `comp` models the source's unwrap
panic as a failed check. -/
def layout_component (comp : Nat) (c : CompDef) (st : LState) :
    LState × Bool :=
  match c with
  | .mk nSig groups cells refCells hasCont =>
      match basesAt st comp with
      | some b =>
          let st := if hasCont then { st with pcCont := st.pcCont ++ [comp] } else st
          let (st, ok1) := layoutSig b nSig 0 st
          let (st, ok2) := layoutGroups b nSig groups 0 st
          let (st, ok3) := layoutCellList comp cells
            (nSig + 2 * groups.length) 0 st
          let (st, ok4) := layoutRefList comp refCells
            (cellsRefPorts cells) (cellsRefCells cells) st
          (st, ok1 && ok2 && ok3 && ok4)
      | none => (st, false)
termination_by sizeOf c

/-- The cell loop of `layout_component`: primitives push their ports then
their ledger; sub-components push a fresh component frame and recurse.
`portOff` and `cellOff` are the definition-local offsets the modelled
context assigns in layout order. -/
def layoutCellList (comp : Nat) (cs : List CellProto)
    (portOff cellOff : Nat) (st : LState) : LState × Bool :=
  match cs with
  | [] => (st, true)
  | .primC n :: rest =>
      let (st1, okP) := layoutPrimPorts comp n portOff st
      let cellIdx := st1.cells.length
      let st2 := { st1 with cells := st1.cells ++ [.prim] }
      let okC :=
        match basesAt st2 comp with
        | some b => cellIdx == b.cell + cellOff
        | none => false
      let (st', restOk) :=
        layoutCellList comp rest (portOff + n) (cellOff + 1) st2
      (st', okP && okC && restOk)
  | .sub c :: rest =>
      let child := new_comp 0 st
      let cellIdx := st.cells.length
      let st1 := { st with cells := st.cells ++ [child] }
      let okC :=
        match basesAt st1 comp with
        | some b => cellIdx == b.cell + cellOff
        | none => false
      let (st2, okSub) := layout_component cellIdx c st1
      let (st', restOk) := layoutCellList comp rest
        (portOff + c.totalPorts) (cellOff + 1 + c.totalCells) st2
      (st', okC && okSub && restOk)
termination_by sizeOf cs

end

/-- Embedding of the layout part of `Environment::new`: push the root
component's ledger (recording its bases from the empty maps) and lay it
out, returning the final state and the conjunction of every layout-time
check. -/
def envNew (c : CompDef) : LState × Bool :=
  let st0 : LState := ⟨0, [], 0, 0, []⟩
  let root := new_comp 0 st0
  let st1 := { st0 with cells := st0.cells ++ [root] }
  layout_component 0 c st1

/-- The value-level disjunction of two optional booleans: defined only
when both operands are defined. -/
def optOr (x y : Option Bool) : Option Bool :=
  match x, y with
  | some a, some b => some (a || b)
  | _, _ => none

/-- The value-level conjunction of two optional booleans: defined only
when both operands are defined. -/
def optAnd (x y : Option Bool) : Option Bool :=
  match x, y with
  | some a, some b => some (a && b)
  | _, _ => none

/-- The retained control point of a `stepNode` result, for stating
concrete observations. -/
def stepNodeKept (r : Except SimError (Option ControlPoint × StepSt)) :
    Option ControlPoint :=
  match r with
  | .ok (k, _) => k
  | .error _ => none

/-- The `with_map` binding of a control point after a `stepNode` result,
for stating concrete observations. -/
def stepNodeWithLookup (r : Except SimError (Option ControlPoint × StepSt))
    (n : ControlPoint) : Option Nat :=
  match r with
  | .ok (_, st) => alistLookup st.withMap n
  | .error _ => none

/-- The primitive contract's combinational sweep never turns a port into
an engine-implicit zero: primitives write cell-provenance values, so any
`Implicit(0)` present after `exec_comb` was already there. -/
def NoImplicitZeroComb (prims : Prims) : Prop :=
  ∀ pm pm' ch, prims.execComb pm = .ok (pm', ch) →
    ∀ p, pm' p = some ⟨0, .implicitW⟩ → pm p = some ⟨0, .implicitW⟩

/-- The primitive contract's clocked sweep never turns a port into an
engine-implicit zero. -/
def NoImplicitZeroCycle (prims : Prims) : Prop :=
  ∀ pm pm', prims.execCycle pm = .ok pm' →
    ∀ p, pm' p = some ⟨0, .implicitW⟩ → pm p = some ⟨0, .implicitW⟩

/-- Value preservation between port maps: every defined slot stays
defined with the same bit pattern (provenance may change). -/
def ValPres (pm pm' : PortMap) : Prop :=
  ∀ p a, pm p = some a → ∃ b, pm' p = some b ∧ b.val = a.val

/-- Write characterization between port maps: every slot is untouched or
holds a value written with assignment provenance. -/
def WroteAssign (pm pm' : PortMap) : Prop :=
  ∀ p, pm' p = pm p ∨ ∃ n j, pm' p = some ⟨n, .assignW j⟩

theorem valPres_refl (pm : PortMap) : ValPres pm pm :=
  fun _ a h => ⟨a, h, rfl⟩

theorem valPres_trans {a b c : PortMap} (h1 : ValPres a b) (h2 : ValPres b c) :
    ValPres a c := by
  intro p x hx
  obtain ⟨y, hy, hyv⟩ := h1 p x hx
  obtain ⟨z, hz, hzv⟩ := h2 p y hy
  exact ⟨z, hz, by rw [hzv, hyv]⟩

theorem wroteAssign_refl (pm : PortMap) : WroteAssign pm pm :=
  fun _ => Or.inl rfl

theorem wroteAssign_trans {a b c : PortMap} (h1 : WroteAssign a b)
    (h2 : WroteAssign b c) : WroteAssign a c := by
  intro p
  rcases h2 p with h | h
  · rw [h]; exact h1 p
  · exact Or.inr h

theorem updatePM_same (pm : PortMap) (i : Nat) (v : Option AssignedValue) :
    updatePM pm i v i = v := by
  simp [updatePM]

theorem updatePM_other (pm : PortMap) (i j : Nat) (v : Option AssignedValue)
    (h : j ≠ i) : updatePM pm i v j = pm j := by
  simp [updatePM, h]


theorem insert_val_empty (pm : PortMap) (t : Nat) (v : AssignedValue)
    (h : pm t = none) :
    insert_val pm t v = (updatePM pm t (some v), .ok .changed) := by
  unfold insert_val
  rw [h]

theorem insert_val_equal (pm : PortMap) (t : Nat) (v t0 : AssignedValue)
    (h : pm t = some t0) (he : t0 = v) :
    insert_val pm t v = (pm, .ok .unchanged) := by
  unfold insert_val
  rw [h]
  simp [he]

theorem insert_val_conflict (pm : PortMap) (t : Nat) (v t0 : AssignedValue)
    (h : pm t = some t0) (hne : t0.val ≠ v.val) :
    insert_val pm t v = (pm, .error (.conflictingAssignments t0 v)) := by
  have hne' : t0 ≠ v := fun hh => hne (by rw [hh])
  have hc : has_conflict_with t0 v = true := by
    simp [has_conflict_with]
    exact hne
  simp [insert_val, h, if_neg hne', hc]

theorem insert_val_overwrite (pm : PortMap) (t : Nat) (v t0 : AssignedValue)
    (h : pm t = some t0) (hne : t0 ≠ v) (hval : t0.val = v.val) :
    insert_val pm t v = (updatePM pm t (some v), .ok .changed) := by
  have hc : ¬has_conflict_with t0 v = true := by
    simp [has_conflict_with]
    exact hval
  simp [insert_val, h, if_neg hne, hc]

theorem insert_val_valPres (pm : PortMap) (t : Nat) (v : AssignedValue)
    (s : UpdateStatus) (h : (insert_val pm t v).2 = .ok s) :
    ValPres pm (insert_val pm t v).1 := by
  intro p a hp
  cases hpt : pm t with
  | none =>
      simp only [insert_val_empty pm t v hpt]
      by_cases hpteq : p = t
      · rw [hpteq] at hp
        rw [hp] at hpt
        exact absurd hpt (by simp)
      · exact ⟨a, by rw [updatePM_other pm t p (some v) hpteq]; exact hp, rfl⟩
  | some t0 =>
      by_cases heq : t0 = v
      · simp only [insert_val_equal pm t v t0 hpt heq]
        exact ⟨a, hp, rfl⟩
      · by_cases hval : t0.val = v.val
        · simp only [insert_val_overwrite pm t v t0 hpt heq hval]
          by_cases hpteq : p = t
          · subst hpteq
            refine ⟨v, updatePM_same pm p (some v), ?_⟩
            have ha : a = t0 := by rw [hp] at hpt; injection hpt
            rw [ha, hval]
          · exact ⟨a, by rw [updatePM_other pm t p (some v) hpteq]; exact hp,
              rfl⟩
        · rw [insert_val_conflict pm t v t0 hpt hval] at h
          exact absurd h (by simp)

theorem insert_val_wroteAssign (pm : PortMap) (t : Nat) (n j : Nat) :
    WroteAssign pm (insert_val pm t ⟨n, .assignW j⟩).1 := by
  intro p
  cases hpt : pm t with
  | none =>
      simp only [insert_val_empty pm t _ hpt]
      by_cases hpteq : p = t
      · subst hpteq
        exact Or.inr ⟨n, j, updatePM_same pm p _⟩
      · exact Or.inl (updatePM_other pm t p _ hpteq)
  | some t0 =>
      by_cases heq : t0 = (⟨n, .assignW j⟩ : AssignedValue)
      · simp [insert_val_equal pm t _ t0 hpt heq]
      · by_cases hval : t0.val = n
        · simp only [insert_val_overwrite pm t ⟨n, .assignW j⟩ t0 hpt heq hval]
          by_cases hpteq : p = t
          · subst hpteq
            exact Or.inr ⟨n, j, updatePM_same pm p _⟩
          · exact Or.inl (updatePM_other pm t p _ hpteq)
        · simp [insert_val_conflict pm t ⟨n, .assignW j⟩ t0 hpt hval]

/-- Claim C10: `insert_val` is atomic on error — a conflicting insertion
leaves the port map completely unchanged, and no insertion ever modifies
a slot other than its target. -/
theorem insert_val_atomic_on_error (pm : PortMap) (t : Nat)
    (v : AssignedValue) :
    (∀ e, (insert_val pm t v).2 = .error e →
      ∀ j, (insert_val pm t v).1 j = pm j) ∧
    (∀ j, j ≠ t → (insert_val pm t v).1 j = pm j) := by
  constructor
  · intro e he j
    cases hpt : pm t with
    | none =>
        rw [insert_val_empty pm t v hpt] at he
        exact absurd he (by simp)
    | some t0 =>
        by_cases heq : t0 = v
        · rw [insert_val_equal pm t v t0 hpt heq] at he
          exact absurd he (by simp)
        · by_cases hval : t0.val = v.val
          · rw [insert_val_overwrite pm t v t0 hpt heq hval] at he
            exact absurd he (by simp)
          · simp only [insert_val_conflict pm t v t0 hpt hval]
  · intro j hj
    cases hpt : pm t with
    | none =>
        simp only [insert_val_empty pm t v hpt]
        exact updatePM_other pm t j _ hj
    | some t0 =>
        by_cases heq : t0 = v
        · simp only [insert_val_equal pm t v t0 hpt heq]
        · by_cases hval : t0.val = v.val
          · simp only [insert_val_overwrite pm t v t0 hpt heq hval]
            exact updatePM_other pm t j _ hj
          · simp only [insert_val_conflict pm t v t0 hpt hval]

/-- Witness for C10: a conflicting insertion at slot 0 reports the
conflict error and leaves both the target slot and unrelated slots
untouched. -/
theorem insert_val_atomic_on_error_witness :
    (insert_val (fun i => if i = 0 then some ⟨1, .assignW 0⟩ else none) 0
        ⟨2, .assignW 1⟩).2 =
      .error (.conflictingAssignments ⟨1, .assignW 0⟩ ⟨2, .assignW 1⟩) ∧
    (insert_val (fun i => if i = 0 then some ⟨1, .assignW 0⟩ else none) 0
        ⟨2, .assignW 1⟩).1 0 = some ⟨1, .assignW 0⟩ ∧
    (insert_val (fun i => if i = 0 then some ⟨1, .assignW 0⟩ else none) 0
        ⟨2, .assignW 1⟩).1 5 = none := by
  refine ⟨rfl, ?_, ?_⟩
  · have h := (insert_val_atomic_on_error
      (fun i => if i = 0 then some ⟨1, .assignW 0⟩ else none) 0
      ⟨2, .assignW 1⟩).1
      (.conflictingAssignments ⟨1, .assignW 0⟩ ⟨2, .assignW 1⟩) rfl 0
    simpa using h
  · have h := (insert_val_atomic_on_error
      (fun i => if i = 0 then some ⟨1, .assignW 0⟩ else none) 0
      ⟨2, .assignW 1⟩).2 5 (by decide)
    simpa using h

theorem except_bind_ok {α β : Type} (a : α) (g : α → Except SimError β) :
    (Except.ok a >>= g) = g a := rfl

theorem except_bind_err {α β : Type} (e : SimError)
    (g : α → Except SimError β) :
    ((Except.error e : Except SimError α) >>= g) = Except.error e := rfl

theorem foldlM_rel {α : Type} (R : PortMap → PortMap → Prop)
    (htrans : ∀ {a b c : PortMap}, R a b → R b c → R a c)
    (f : (PortMap × Bool) → α → Except SimError (PortMap × Bool))
    (hf : ∀ st a r, f st a = .ok r → R st.1 r.1)
    (hrefl : ∀ pm, R pm pm) :
    ∀ (l : List α) (st r : PortMap × Bool),
      l.foldlM f st = .ok r → R st.1 r.1 := by
  intro l
  induction l with
  | nil =>
      intro st r h
      simp only [List.foldlM_nil, pure] at h
      cases h
      exact hrefl _
  | cons a rest ih =>
      intro st r h
      rw [List.foldlM_cons] at h
      cases hfa : f st a with
      | error e => rw [hfa, except_bind_err] at h; cases h
      | ok st' =>
          rw [hfa, except_bind_ok] at h
          exact htrans (hf st a st' hfa) (ih st' r h)

theorem applyWrite_valPres (pm : PortMap) (hasCh : Bool) (dest i : Nat)
    (val : Option AssignedValue) (res : PortMap × Bool)
    (h : applyWrite pm hasCh dest i val = .ok res) : ValPres pm res.1 := by
  unfold applyWrite at h
  cases val with
  | some v =>
      dsimp only at h
      cases hins : (insert_val pm dest ⟨v.val, .assignW i⟩).2 with
      | error e => rw [hins] at h; cases h
      | ok st =>
          rw [hins] at h
          cases h
          exact insert_val_valPres pm dest _ st hins
  | none =>
      dsimp only at h
      by_cases hd : (pm dest).isSome = true
      · rw [if_pos hd] at h
        cases h
      · rw [if_neg hd] at h
        cases h
        exact valPres_refl pm

theorem applyWrite_wroteAssign (pm : PortMap) (hasCh : Bool) (dest i : Nat)
    (val : Option AssignedValue) (res : PortMap × Bool)
    (h : applyWrite pm hasCh dest i val = .ok res) : WroteAssign pm res.1 := by
  unfold applyWrite at h
  cases val with
  | some v =>
      dsimp only at h
      cases hins : (insert_val pm dest ⟨v.val, .assignW i⟩).2 with
      | error e => rw [hins] at h; cases h
      | ok st =>
          rw [hins] at h
          cases h
          exact insert_val_wroteAssign pm dest _ _
  | none =>
      dsimp only at h
      by_cases hd : (pm dest).isSome = true
      · rw [if_pos hd] at h
        cases h
      · rw [if_neg hd] at h
        cases h
        exact wroteAssign_refl pm

theorem firedStep_valPres (cells : Nat → CellLedger)
    (refPorts : Nat → Option Nat) (ctx : SimCtx) (doneI : Option Nat)
    (activeCell : Nat) (pm : PortMap) (hasCh : Bool) (i : Nat)
    (res : PortMap × Bool)
    (h : firedStep cells refPorts ctx doneI activeCell pm hasCh i = .ok res) :
    ValPres pm res.1 := by
  unfold firedStep at h
  dsimp only at h
  cases hv : get_value cells refPorts pm (ctx.assign i).src activeCell with
  | error e => rw [hv, except_bind_err] at h; cases h
  | ok val =>
      rw [hv, except_bind_ok] at h
      cases hd : get_global_port_idx cells refPorts (ctx.assign i).dst
          activeCell with
      | error e => rw [hd, except_bind_err] at h; cases h
      | ok dest =>
          rw [hd, except_bind_ok] at h
          split at h
          · split at h
            · cases h
              exact valPres_refl pm
            · exact applyWrite_valPres pm hasCh dest i val res h
          · exact applyWrite_valPres pm hasCh dest i val res h

theorem firedStep_wroteAssign (cells : Nat → CellLedger)
    (refPorts : Nat → Option Nat) (ctx : SimCtx) (doneI : Option Nat)
    (activeCell : Nat) (pm : PortMap) (hasCh : Bool) (i : Nat)
    (res : PortMap × Bool)
    (h : firedStep cells refPorts ctx doneI activeCell pm hasCh i = .ok res) :
    WroteAssign pm res.1 := by
  unfold firedStep at h
  dsimp only at h
  cases hv : get_value cells refPorts pm (ctx.assign i).src activeCell with
  | error e => rw [hv, except_bind_err] at h; cases h
  | ok val =>
      rw [hv, except_bind_ok] at h
      cases hd : get_global_port_idx cells refPorts (ctx.assign i).dst
          activeCell with
      | error e => rw [hd, except_bind_err] at h; cases h
      | ok dest =>
          rw [hd, except_bind_ok] at h
          split at h
          · split at h
            · cases h
              exact wroteAssign_refl pm
            · exact applyWrite_wroteAssign pm hasCh dest i val res h
          · exact applyWrite_wroteAssign pm hasCh dest i val res h

theorem processAssign_valPres (cells : Nat → CellLedger)
    (refPorts : Nat → Option Nat) (ctx : SimCtx) (goI doneI : Option Nat)
    (compGo : Nat) (activeCell : Nat) (st : PortMap × Bool) (i : Nat)
    (res : PortMap × Bool)
    (h : processAssign cells refPorts ctx goI doneI compGo activeCell st i =
      .ok res) : ValPres st.1 res.1 := by
  unfold processAssign at h
  dsimp only at h
  cases hg : evaluate_guard cells refPorts st.1 (ctx.assign i).guard
      activeCell with
  | error e => rw [hg, except_bind_err] at h; cases h
  | ok g =>
      rw [hg, except_bind_ok] at h
      split at h
      · exact firedStep_valPres cells refPorts ctx doneI activeCell st.1 st.2
          i res h
      · cases h
        exact valPres_refl st.1

theorem processAssign_wroteAssign (cells : Nat → CellLedger)
    (refPorts : Nat → Option Nat) (ctx : SimCtx) (goI doneI : Option Nat)
    (compGo : Nat) (activeCell : Nat) (st : PortMap × Bool) (i : Nat)
    (res : PortMap × Bool)
    (h : processAssign cells refPorts ctx goI doneI compGo activeCell st i =
      .ok res) : WroteAssign st.1 res.1 := by
  unfold processAssign at h
  dsimp only at h
  cases hg : evaluate_guard cells refPorts st.1 (ctx.assign i).guard
      activeCell with
  | error e => rw [hg, except_bind_err] at h; cases h
  | ok g =>
      rw [hg, except_bind_ok] at h
      split at h
      · exact firedStep_wroteAssign cells refPorts ctx doneI activeCell st.1
          st.2 i res h
      · cases h
        exact wroteAssign_refl st.1

theorem processSched_valPres (cells : Nat → CellLedger)
    (refPorts : Nat → Option Nat) (ctx : SimCtx) (st : PortMap × Bool)
    (s : Sched) (res : PortMap × Bool)
    (h : processSched cells refPorts ctx st s = .ok res) :
    ValPres st.1 res.1 := by
  unfold processSched at h
  cases hu : unwrap_comp cells s.activeCell with
  | error e => rw [hu, except_bind_err] at h; cases h
  | ok bc =>
      rw [hu, except_bind_ok] at h
      obtain ⟨bs, cid⟩ := bc
      dsimp only at h
      cases hcg : get_comp_go ctx cells s.activeCell with
      | error e => rw [hcg, except_bind_err] at h; cases h
      | ok compGo =>
          rw [hcg, except_bind_ok] at h
          exact foldlM_rel ValPres valPres_trans _
            (fun st' a r' h' => processAssign_valPres cells refPorts ctx _ _
              compGo s.activeCell st' a r' h')
            valPres_refl s.assignments st res h

theorem processSched_wroteAssign (cells : Nat → CellLedger)
    (refPorts : Nat → Option Nat) (ctx : SimCtx) (st : PortMap × Bool)
    (s : Sched) (res : PortMap × Bool)
    (h : processSched cells refPorts ctx st s = .ok res) :
    WroteAssign st.1 res.1 := by
  unfold processSched at h
  cases hu : unwrap_comp cells s.activeCell with
  | error e => rw [hu, except_bind_err] at h; cases h
  | ok bc =>
      rw [hu, except_bind_ok] at h
      obtain ⟨bs, cid⟩ := bc
      dsimp only at h
      cases hcg : get_comp_go ctx cells s.activeCell with
      | error e => rw [hcg, except_bind_err] at h; cases h
      | ok compGo =>
          rw [hcg, except_bind_ok] at h
          exact foldlM_rel WroteAssign wroteAssign_trans _
            (fun st' a r' h' => processAssign_wroteAssign cells refPorts ctx
              _ _ compGo s.activeCell st' a r' h')
            wroteAssign_refl s.assignments st res h

theorem processBundle_valPres (cells : Nat → CellLedger)
    (refPorts : Nat → Option Nat) (ctx : SimCtx) (bundle : List Sched)
    (pm : PortMap) (res : PortMap × Bool)
    (h : processBundle cells refPorts ctx bundle pm = .ok res) :
    ValPres pm res.1 := by
  unfold processBundle at h
  exact foldlM_rel ValPres valPres_trans _
    (fun st' a r' h' => processSched_valPres cells refPorts ctx st' a r' h')
    valPres_refl bundle (pm, false) res h

theorem processBundle_wroteAssign (cells : Nat → CellLedger)
    (refPorts : Nat → Option Nat) (ctx : SimCtx) (bundle : List Sched)
    (pm : PortMap) (res : PortMap × Bool)
    (h : processBundle cells refPorts ctx bundle pm = .ok res) :
    WroteAssign pm res.1 := by
  unfold processBundle at h
  exact foldlM_rel WroteAssign wroteAssign_trans _
    (fun st' a r' h' =>
      processSched_wroteAssign cells refPorts ctx st' a r' h')
    wroteAssign_refl bundle (pm, false) res h

/-- Claim C1: `insert_val` returns `Unchanged` when the slot already
holds an equal assigned value, `Changed` when the slot is empty, and the
`ConflictingAssignments` error carrying both values when the held value
conflicts with the new one; consequently a convergence pass's assignment
stage that completes without error never changes the bit pattern held by
an already-assigned port (no silent last-writer-wins). -/
theorem insert_val_conflict_detection (pm : PortMap) (t : Nat)
    (v : AssignedValue) :
    (pm t = none →
      insert_val pm t v = (updatePM pm t (some v), .ok .changed)) ∧
    (∀ a, pm t = some a → a = v →
      insert_val pm t v = (pm, .ok .unchanged)) ∧
    (∀ a, pm t = some a → a.val ≠ v.val →
      insert_val pm t v = (pm, .error (.conflictingAssignments a v))) ∧
    (∀ (cells : Nat → CellLedger) (rp : Nat → Option Nat) (ctx : SimCtx)
      (bundle : List Sched) (res : PortMap × Bool),
      processBundle cells rp ctx bundle pm = .ok res →
      ∀ p a b, pm p = some a → res.1 p = some b → b.val = a.val) := by
  refine ⟨?_, ?_, ?_, ?_⟩
  · intro h
    exact insert_val_empty pm t v h
  · intro a ha he
    exact insert_val_equal pm t v a ha he
  · intro a ha hne
    exact insert_val_conflict pm t v a ha hne
  · intro cells rp ctx bundle res h p a b hpa hpb
    obtain ⟨b', hb', hbv⟩ := processBundle_valPres cells rp ctx bundle pm res
      h p a hpa
    rw [hpb] at hb'
    injection hb' with hb'
    rw [hb', hbv]

/-- Witness for C1: on a map holding value 1 at slot 0, inserting into
the empty slot 1 is `Changed`, re-inserting the equal value at slot 0 is
`Unchanged`, inserting a conflicting value 2 at slot 0 errors with both
values, and an empty bundle's assignment stage preserves slot 0's
value. -/
theorem insert_val_conflict_detection_witness :
    (insert_val (fun i => if i = 0 then some ⟨1, .assignW 0⟩ else none) 1
        ⟨7, .assignW 2⟩ =
      (updatePM (fun i => if i = 0 then some ⟨1, .assignW 0⟩ else none) 1
        (some ⟨7, .assignW 2⟩), .ok .changed)) ∧
    (insert_val (fun i => if i = 0 then some ⟨1, .assignW 0⟩ else none) 0
        ⟨1, .assignW 0⟩ =
      ((fun i => if i = 0 then some ⟨1, .assignW 0⟩ else none), .ok
        .unchanged)) ∧
    (insert_val (fun i => if i = 0 then some ⟨1, .assignW 0⟩ else none) 0
        ⟨2, .assignW 1⟩ =
      ((fun i => if i = 0 then some ⟨1, .assignW 0⟩ else none),
        .error (.conflictingAssignments ⟨1, .assignW 0⟩ ⟨2, .assignW 1⟩))) ∧
    (1 : Nat) = 1 := by
  refine ⟨?_, ?_, ?_, ?_⟩
  · exact (insert_val_conflict_detection
      (fun i => if i = 0 then some ⟨1, .assignW 0⟩ else none) 1
      ⟨7, .assignW 2⟩).1 (by decide)
  · exact (insert_val_conflict_detection
      (fun i => if i = 0 then some ⟨1, .assignW 0⟩ else none) 0
      ⟨1, .assignW 0⟩).2.1 ⟨1, .assignW 0⟩ (by decide) rfl
  · exact (insert_val_conflict_detection
      (fun i => if i = 0 then some ⟨1, .assignW 0⟩ else none) 0
      ⟨2, .assignW 1⟩).2.2.1 ⟨1, .assignW 0⟩ (by decide) (by decide)
  · exact (insert_val_conflict_detection
      (fun i => if i = 0 then some ⟨1, .assignW 0⟩ else none) 0
      ⟨9, .assignW 4⟩).2.2.2 (fun _ => .comp ⟨0, 1, 0, 0⟩ 0) (fun _ => none)
      ⟨fun _ => ⟨.loc 0, .loc 1, .tru⟩, fun _ => ⟨0, 1, []⟩, fun _ => [],
        fun _ => ⟨0, 1, none⟩, fun _ => .empty, fun _ => none,
          fun _ => [], fun _ => [], fun _ _ => 0, fun _ _ => .loc 0⟩ [] _ rfl 0
      ⟨1, .assignW 0⟩ ⟨1, .assignW 0⟩ (by decide) (by decide)

theorem processAssign_eq (cells : Nat → CellLedger)
    (rp : Nat → Option Nat) (ctx : SimCtx) (goI doneI : Option Nat)
    (compGo activeCell : Nat) (st : PortMap × Bool) (i : Nat)
    (g : Option Bool)
    (hg : evaluate_guard cells rp st.1 (ctx.assign i).guard activeCell =
      .ok g) :
    processAssign cells rp ctx goI doneI compGo activeCell st i =
      if (g.getD false &&
          (match goI with
           | some gp => (asBool (st.1 gp)).getD false &&
               (asBool (st.1 compGo)).getD false
           | none => true)) = true then
        firedStep cells rp ctx doneI activeCell st.1 st.2 i
      else .ok st := by
  unfold processAssign
  dsimp only
  rw [hg, except_bind_ok]

theorem firedStep_eq (cells : Nat → CellLedger) (rp : Nat → Option Nat)
    (ctx : SimCtx) (doneI : Option Nat) (activeCell : Nat) (pm : PortMap)
    (hasCh : Bool) (i : Nat) (val : Option AssignedValue) (dest : Nat)
    (hv : get_value cells rp pm (ctx.assign i).src activeCell = .ok val)
    (hd : get_global_port_idx cells rp (ctx.assign i).dst activeCell =
      .ok dest) :
    firedStep cells rp ctx doneI activeCell pm hasCh i =
      (match doneI with
       | some d =>
           if dest ≠ d ∧ (asBool (pm d)).getD true then .ok (pm, hasCh)
           else applyWrite pm hasCh dest i val
       | none => applyWrite pm hasCh dest i val) := by
  unfold firedStep
  dsimp only
  rw [hv, except_bind_ok, hd, except_bind_ok]

/-- Claim C2: inside a convergence pass an assignment with interface
ports fires only when its guard evaluates to a defined true and both the
entry's group `go` port and the active component's `go` port read high;
with no interface ports it fires whenever its guard holds; and a guard
that is undefined (or false) means the assignment does nothing. -/
theorem assignment_fire_conditions (cells : Nat → CellLedger)
    (rp : Nat → Option Nat) (ctx : SimCtx) (goI doneI : Option Nat)
    (compGo activeCell : Nat) (st : PortMap × Bool) (i : Nat)
    (g : Option Bool)
    (hg : evaluate_guard cells rp st.1 (ctx.assign i).guard activeCell =
      .ok g) :
    (g ≠ some true →
      processAssign cells rp ctx goI doneI compGo activeCell st i = .ok st) ∧
    (∀ gp, goI = some gp →
      ¬((asBool (st.1 gp)).getD false = true ∧
        (asBool (st.1 compGo)).getD false = true) →
      processAssign cells rp ctx goI doneI compGo activeCell st i = .ok st) ∧
    (g = some true → goI = none →
      processAssign cells rp ctx goI doneI compGo activeCell st i =
        firedStep cells rp ctx doneI activeCell st.1 st.2 i) ∧
    (∀ gp, g = some true → goI = some gp →
      (asBool (st.1 gp)).getD false = true →
      (asBool (st.1 compGo)).getD false = true →
      processAssign cells rp ctx goI doneI compGo activeCell st i =
        firedStep cells rp ctx doneI activeCell st.1 st.2 i) := by
  refine ⟨?_, ?_, ?_, ?_⟩
  · intro hng
    rw [processAssign_eq cells rp ctx goI doneI compGo activeCell st i g hg]
    have hgf : g.getD false = false := by
      cases g with
      | none => rfl
      | some b =>
          cases b with
          | false => rfl
          | true => exact absurd rfl hng
    rw [if_neg]
    simp [hgf]
  · intro gp hgp hnot
    subst hgp
    rw [processAssign_eq cells rp ctx (some gp) doneI compGo activeCell st i
      g hg]
    rw [if_neg]
    intro hcond
    rw [Bool.and_eq_true] at hcond
    rw [Bool.and_eq_true] at hcond
    exact hnot ⟨hcond.2.1, hcond.2.2⟩
  · intro hgt hgo
    subst hgo
    rw [processAssign_eq cells rp ctx none doneI compGo activeCell st i g hg]
    rw [if_pos]
    rw [hgt]
    rfl
  · intro gp hgt hgp hgph hcgh
    subst hgp
    rw [processAssign_eq cells rp ctx (some gp) doneI compGo activeCell st i
      g hg]
    rw [if_pos]
    rw [hgt]
    dsimp only
    rw [hgph, hcgh]
    rfl

/-- Witness for C2: with a true guard and no interface ports the
assignment proceeds to its fired body, and with interface ports over an
all-undefined port map (group `go` not high) it does nothing. -/
theorem assignment_fire_conditions_witness :
    (processAssign (fun _ => .comp ⟨0, 1, 0, 0⟩ 0) (fun _ => none)
        ⟨fun _ => ⟨.loc 0, .loc 1, .tru⟩, fun _ => ⟨0, 1, []⟩, fun _ => [],
          fun _ => ⟨0, 1, none⟩, fun _ => .empty, fun _ => none,
          fun _ => [], fun _ => [], fun _ _ => 0, fun _ _ => .loc 0⟩
        none none 0 0 ((fun _ => none), false) 0 =
      firedStep (fun _ => .comp ⟨0, 1, 0, 0⟩ 0) (fun _ => none)
        ⟨fun _ => ⟨.loc 0, .loc 1, .tru⟩, fun _ => ⟨0, 1, []⟩, fun _ => [],
          fun _ => ⟨0, 1, none⟩, fun _ => .empty, fun _ => none,
          fun _ => [], fun _ => [], fun _ _ => 0, fun _ _ => .loc 0⟩
        none 0 (fun _ => none) false 0) ∧
    (processAssign (fun _ => .comp ⟨0, 1, 0, 0⟩ 0) (fun _ => none)
        ⟨fun _ => ⟨.loc 0, .loc 1, .tru⟩, fun _ => ⟨0, 1, []⟩, fun _ => [],
          fun _ => ⟨0, 1, none⟩, fun _ => .empty, fun _ => none,
          fun _ => [], fun _ => [], fun _ _ => 0, fun _ _ => .loc 0⟩
        (some 2) (some 3) 0 0 ((fun _ => none), false) 0 =
      .ok ((fun _ => none), false)) := by
  constructor
  · exact (assignment_fire_conditions (fun _ => .comp ⟨0, 1, 0, 0⟩ 0)
      (fun _ => none)
      ⟨fun _ => ⟨.loc 0, .loc 1, .tru⟩, fun _ => ⟨0, 1, []⟩, fun _ => [],
        fun _ => ⟨0, 1, none⟩, fun _ => .empty, fun _ => none,
          fun _ => [], fun _ => [], fun _ _ => 0, fun _ _ => .loc 0⟩
      none none 0 0 ((fun _ => none), false) 0 (some true) rfl).2.2.1
      rfl rfl
  · exact (assignment_fire_conditions (fun _ => .comp ⟨0, 1, 0, 0⟩ 0)
      (fun _ => none)
      ⟨fun _ => ⟨.loc 0, .loc 1, .tru⟩, fun _ => ⟨0, 1, []⟩, fun _ => [],
        fun _ => ⟨0, 1, none⟩, fun _ => .empty, fun _ => none,
          fun _ => [], fun _ => [], fun _ _ => 0, fun _ _ => .loc 0⟩
      (some 2) (some 3) 0 0 ((fun _ => none), false) 0 (some true)
      rfl).2.1 2 rfl (by decide)

/-- Claim C3: a fired assignment of an entry with interface ports is
skipped (writes nothing) when its destination differs from the entry's
`done` port and that port reads high or is undefined; when the
destination is the `done` port itself this skip rule never applies and
the write proceeds. -/
theorem done_port_skip_rule (cells : Nat → CellLedger)
    (rp : Nat → Option Nat) (ctx : SimCtx) (d activeCell : Nat)
    (pm : PortMap) (hasCh : Bool) (i : Nat) (val : Option AssignedValue)
    (dest : Nat)
    (hv : get_value cells rp pm (ctx.assign i).src activeCell = .ok val)
    (hd : get_global_port_idx cells rp (ctx.assign i).dst activeCell =
      .ok dest) :
    (((asBool (pm d)).getD true = true) ↔
      (pm d = none ∨ asBool (pm d) = some true)) ∧
    (dest ≠ d → (asBool (pm d)).getD true = true →
      firedStep cells rp ctx (some d) activeCell pm hasCh i =
        .ok (pm, hasCh)) ∧
    (dest ≠ d → (asBool (pm d)).getD true = false →
      firedStep cells rp ctx (some d) activeCell pm hasCh i =
        applyWrite pm hasCh dest i val) ∧
    (dest = d →
      firedStep cells rp ctx (some d) activeCell pm hasCh i =
        applyWrite pm hasCh dest i val) := by
  refine ⟨?_, ?_, ?_, ?_⟩
  · cases hpd : pm d with
    | none => simp [asBool]
    | some a =>
        simp only [asBool, hpd, Option.map_some', Option.getD_some]
        constructor
        · intro hb
          exact Or.inr (by rw [hb])
        · intro hb
          rcases hb with hb | hb
          · cases hb
          · injection hb
  · intro hne hhigh
    rw [firedStep_eq cells rp ctx (some d) activeCell pm hasCh i val dest
      hv hd]
    dsimp only
    rw [if_pos ⟨hne, hhigh⟩]
  · intro hne hlow
    rw [firedStep_eq cells rp ctx (some d) activeCell pm hasCh i val dest
      hv hd]
    dsimp only
    rw [if_neg]
    intro hcon
    rw [hlow] at hcon
    exact absurd hcon.2 (by simp)
  · intro heq
    rw [firedStep_eq cells rp ctx (some d) activeCell pm hasCh i val dest
      hv hd]
    dsimp only
    rw [if_neg]
    intro hcon
    exact hcon.1 heq

/-- Witness for C3: with the entry `done` port (index 3) reading high, a
fired assignment targeting port 0 is skipped, while the same fired
assignment with the `done` port taken as its own destination (index 0,
undefined) proceeds to its write. -/
theorem done_port_skip_rule_witness :
    (firedStep (fun _ => .comp ⟨0, 1, 0, 0⟩ 0) (fun _ => none)
        ⟨fun _ => ⟨.loc 0, .loc 1, .tru⟩, fun _ => ⟨0, 1, []⟩, fun _ => [],
          fun _ => ⟨0, 1, none⟩, fun _ => .empty, fun _ => none,
          fun _ => [], fun _ => [], fun _ _ => 0, fun _ _ => .loc 0⟩
        (some 3) 0
        (fun j => if j = 3 then some ⟨1, .implicitW⟩ else none) false 0 =
      .ok ((fun j => if j = 3 then some ⟨1, .implicitW⟩ else none), false)) ∧
    (firedStep (fun _ => .comp ⟨0, 1, 0, 0⟩ 0) (fun _ => none)
        ⟨fun _ => ⟨.loc 0, .loc 1, .tru⟩, fun _ => ⟨0, 1, []⟩, fun _ => [],
          fun _ => ⟨0, 1, none⟩, fun _ => .empty, fun _ => none,
          fun _ => [], fun _ => [], fun _ _ => 0, fun _ _ => .loc 0⟩
        (some 0) 0
        (fun j => if j = 3 then some ⟨1, .implicitW⟩ else none) false 0 =
      applyWrite (fun j => if j = 3 then some ⟨1, .implicitW⟩ else none)
        false 0 0 none) := by
  constructor
  · exact (done_port_skip_rule (fun _ => .comp ⟨0, 1, 0, 0⟩ 0)
      (fun _ => none)
      ⟨fun _ => ⟨.loc 0, .loc 1, .tru⟩, fun _ => ⟨0, 1, []⟩, fun _ => [],
        fun _ => ⟨0, 1, none⟩, fun _ => .empty, fun _ => none,
          fun _ => [], fun _ => [], fun _ _ => 0, fun _ _ => .loc 0⟩
      3 0 (fun j => if j = 3 then some ⟨1, .implicitW⟩ else none) false 0
      none 0 rfl rfl).2.1 (by decide) (by decide)
  · exact (done_port_skip_rule (fun _ => .comp ⟨0, 1, 0, 0⟩ 0)
      (fun _ => none)
      ⟨fun _ => ⟨.loc 0, .loc 1, .tru⟩, fun _ => ⟨0, 1, []⟩, fun _ => [],
        fun _ => ⟨0, 1, none⟩, fun _ => .empty, fun _ => none,
          fun _ => [], fun _ => [], fun _ _ => 0, fun _ _ => .loc 0⟩
      0 0 (fun j => if j = 3 then some ⟨1, .implicitW⟩ else none) false 0
      none 0 rfl rfl).2.2.2 rfl

theorem evaluate_guard_orG_eq (cells : Nat → CellLedger)
    (rp : Nat → Option Nat) (pm : PortMap) (a b : Guard) (comp : Nat)
    (ra rb : Option Bool)
    (ha : evaluate_guard cells rp pm a comp = .ok ra)
    (hb : evaluate_guard cells rp pm b comp = .ok rb) :
    evaluate_guard cells rp pm (.orG a b) comp = .ok (optOr ra rb) := by
  simp only [evaluate_guard]
  rw [ha, except_bind_ok]
  cases ra with
  | none => rfl
  | some x =>
      dsimp only
      rw [hb, except_bind_ok]
      cases rb with
      | none => rfl
      | some y => rfl

theorem evaluate_guard_andG_eq (cells : Nat → CellLedger)
    (rp : Nat → Option Nat) (pm : PortMap) (a b : Guard) (comp : Nat)
    (ra rb : Option Bool)
    (ha : evaluate_guard cells rp pm a comp = .ok ra)
    (hb : evaluate_guard cells rp pm b comp = .ok rb) :
    evaluate_guard cells rp pm (.andG a b) comp = .ok (optAnd ra rb) := by
  simp only [evaluate_guard]
  rw [ha, except_bind_ok]
  cases ra with
  | none => rfl
  | some x =>
      dsimp only
      rw [hb, except_bind_ok]
      cases rb with
      | none => rfl
      | some y => rfl

theorem evaluate_guard_notG_eq (cells : Nat → CellLedger)
    (rp : Nat → Option Nat) (pm : PortMap) (n : Guard) (comp : Nat)
    (rn : Option Bool)
    (hn : evaluate_guard cells rp pm n comp = .ok rn) :
    evaluate_guard cells rp pm (.notG n) comp =
      .ok (rn.map (fun x => !x)) := by
  simp only [evaluate_guard]
  rw [hn, except_bind_ok]
  cases rn with
  | none => rfl
  | some x => rfl

theorem evaluate_guard_none_iff (cells : Nat → CellLedger)
    (rp : Nat → Option Nat) (pm : PortMap) (comp : Nat) (bs : BaseIndices)
    (cid : Nat) (hc : cells comp = .comp bs cid) :
    ∀ g : Guard,
      (∀ p ∈ guardPorts g, ∃ k,
        lookup_global_port_id rp (convert_to_global_port bs p) = .ok k) →
      ∃ r, evaluate_guard cells rp pm g comp = .ok r ∧
        (r = none ↔ ∃ p ∈ guardPorts g, ∃ k,
          lookup_global_port_id rp (convert_to_global_port bs p) = .ok k ∧
          pm k = none) := by
  have hun : unwrap_comp cells comp = .ok (bs, cid) := by
    unfold unwrap_comp
    rw [hc]
  intro g
  induction g with
  | tru =>
      intro _
      refine ⟨some true, rfl, ?_⟩
      simp [guardPorts]
  | orG a b iha ihb =>
      intro hres
      obtain ⟨ra, hra, iffa⟩ := iha (fun p hp => hres p
        (by simp [guardPorts]; exact Or.inl hp))
      obtain ⟨rb, hrb, iffb⟩ := ihb (fun p hp => hres p
        (by simp [guardPorts]; exact Or.inr hp))
      refine ⟨_, evaluate_guard_orG_eq cells rp pm a b comp ra rb hra hrb, ?_⟩
      cases ra with
      | none =>
          simp only [guardPorts]
          constructor
          · intro _
            obtain ⟨p, hp, k, hk, hpk⟩ := iffa.mp rfl
            exact ⟨p, by simp [List.mem_append]; exact Or.inl hp, k, hk, hpk⟩
          · intro _
            trivial
      | some x =>
          cases rb with
          | none =>
              simp only [guardPorts]
              constructor
              · intro _
                obtain ⟨p, hp, k, hk, hpk⟩ := iffb.mp rfl
                exact ⟨p, by simp [List.mem_append]; exact Or.inr hp, k, hk,
                  hpk⟩
              · intro _
                trivial
          | some y =>
              simp only [guardPorts]
              constructor
              · intro hcon
                cases hcon
              · intro hex
                obtain ⟨p, hp, k, hk, hpk⟩ := hex
                rw [List.mem_append] at hp
                rcases hp with hp | hp
                · exact absurd (iffa.mpr ⟨p, hp, k, hk, hpk⟩) (by simp)
                · exact absurd (iffb.mpr ⟨p, hp, k, hk, hpk⟩) (by simp)
  | andG a b iha ihb =>
      intro hres
      obtain ⟨ra, hra, iffa⟩ := iha (fun p hp => hres p
        (by simp [guardPorts]; exact Or.inl hp))
      obtain ⟨rb, hrb, iffb⟩ := ihb (fun p hp => hres p
        (by simp [guardPorts]; exact Or.inr hp))
      refine ⟨_, evaluate_guard_andG_eq cells rp pm a b comp ra rb hra hrb, ?_⟩
      cases ra with
      | none =>
          simp only [guardPorts]
          constructor
          · intro _
            obtain ⟨p, hp, k, hk, hpk⟩ := iffa.mp rfl
            exact ⟨p, by simp [List.mem_append]; exact Or.inl hp, k, hk, hpk⟩
          · intro _
            trivial
      | some x =>
          cases rb with
          | none =>
              simp only [guardPorts]
              constructor
              · intro _
                obtain ⟨p, hp, k, hk, hpk⟩ := iffb.mp rfl
                exact ⟨p, by simp [List.mem_append]; exact Or.inr hp, k, hk,
                  hpk⟩
              · intro _
                trivial
          | some y =>
              simp only [guardPorts]
              constructor
              · intro hcon
                cases hcon
              · intro hex
                obtain ⟨p, hp, k, hk, hpk⟩ := hex
                rw [List.mem_append] at hp
                rcases hp with hp | hp
                · exact absurd (iffa.mpr ⟨p, hp, k, hk, hpk⟩) (by simp)
                · exact absurd (iffb.mpr ⟨p, hp, k, hk, hpk⟩) (by simp)
  | notG n ihn =>
      intro hres
      obtain ⟨rn, hrn, iffn⟩ := ihn (fun p hp => hres p (by
        simp only [guardPorts]; exact hp))
      refine ⟨_, evaluate_guard_notG_eq cells rp pm n comp rn hrn, ?_⟩
      cases rn with
      | none =>
          simp only [Option.map_none', guardPorts]
          constructor
          · intro _
            exact iffn.mp rfl
          · intro _
            trivial
      | some x =>
          simp only [Option.map_some', guardPorts]
          constructor
          · intro hcon
            cases hcon
          · intro hex
            exact absurd (iffn.mpr hex) (by simp)
  | cmp c a b =>
      intro hres
      obtain ⟨ka, hka⟩ := hres a (by simp [guardPorts])
      obtain ⟨kb, hkb⟩ := hres b (by simp [guardPorts])
      have heq : evaluate_guard cells rp pm (.cmp c a b) comp =
          (match pm ka, pm kb with
           | some av, some bv => .ok (some (PortCompOp.apply c av.val bv.val))
           | _, _ => .ok none) := by
        simp only [evaluate_guard]
        rw [hun, except_bind_ok]
        dsimp only
        rw [hka, except_bind_ok, hkb, except_bind_ok]
      cases hpa : pm ka with
      | none =>
          refine ⟨none, by rw [heq, hpa], ?_⟩
          constructor
          · intro _
            exact ⟨a, by simp [guardPorts], ka, hka, hpa⟩
          · intro _
            trivial
      | some av =>
          cases hpb : pm kb with
          | none =>
              refine ⟨none, by rw [heq, hpa, hpb], ?_⟩
              constructor
              · intro _
                exact ⟨b, by simp [guardPorts], kb, hkb, hpb⟩
              · intro _
                trivial
          | some bv =>
              refine ⟨some (PortCompOp.apply c av.val bv.val),
                by rw [heq, hpa, hpb], ?_⟩
              constructor
              · intro hcon
                cases hcon
              · intro hex
                obtain ⟨p, hp, k, hk, hpk⟩ := hex
                simp only [guardPorts, List.mem_cons, List.mem_singleton,
                  List.not_mem_nil, or_false] at hp
                rcases hp with hp | hp
                · subst hp
                  rw [hka] at hk
                  injection hk with hk
                  rw [← hk] at hpk
                  rw [hpa] at hpk
                  cases hpk
                · subst hp
                  rw [hkb] at hk
                  injection hk with hk
                  rw [← hk] at hpk
                  rw [hpb] at hpk
                  cases hpk
  | port p =>
      intro hres
      obtain ⟨k, hk⟩ := hres p (by simp [guardPorts])
      have heq : evaluate_guard cells rp pm (.port p) comp =
          .ok (asBool (pm k)) := by
        simp only [evaluate_guard]
        rw [hun, except_bind_ok]
        dsimp only
        rw [hk, except_bind_ok]
      refine ⟨asBool (pm k), heq, ?_⟩
      cases hpk : pm k with
      | none =>
          simp only [asBool, Option.map_none']
          constructor
          · intro _
            exact ⟨p, by simp [guardPorts], k, hk, hpk⟩
          · intro _
            trivial
      | some av =>
          simp only [asBool, Option.map_some']
          constructor
          · intro hcon
            cases hcon
          · intro hex
            obtain ⟨q, hq, k', hk', hpk'⟩ := hex
            simp only [guardPorts, List.mem_singleton] at hq
            subst hq
            rw [hk] at hk'
            injection hk' with hk'
            rw [← hk'] at hpk'
            rw [hpk] at hpk'
            cases hpk'

/-- Claim C5: guard evaluation returns undefined exactly when some port
referenced in the guard is undefined; `And`/`Or` combine the two
operands' value optionals without a boolean shortcut, `Not` maps over its
operand's optional, and `Comp`/`Port` are undefined when a referenced
port value is. -/
theorem guard_undefined_propagation (cells : Nat → CellLedger)
    (rp : Nat → Option Nat) (pm : PortMap) (comp : Nat) (bs : BaseIndices)
    (cid : Nat) (g : Guard) (hc : cells comp = .comp bs cid)
    (hres : ∀ p ∈ guardPorts g, ∃ k,
      lookup_global_port_id rp (convert_to_global_port bs p) = .ok k) :
    (∃ r, evaluate_guard cells rp pm g comp = .ok r ∧
      (r = none ↔ ∃ p ∈ guardPorts g, ∃ k,
        lookup_global_port_id rp (convert_to_global_port bs p) = .ok k ∧
        pm k = none)) ∧
    (∀ a b ra rb, evaluate_guard cells rp pm a comp = .ok ra →
      evaluate_guard cells rp pm b comp = .ok rb →
      evaluate_guard cells rp pm (.orG a b) comp = .ok (optOr ra rb) ∧
      evaluate_guard cells rp pm (.andG a b) comp = .ok (optAnd ra rb)) ∧
    (∀ n rn, evaluate_guard cells rp pm n comp = .ok rn →
      evaluate_guard cells rp pm (.notG n) comp =
        .ok (rn.map (fun x => !x))) := by
  refine ⟨evaluate_guard_none_iff cells rp pm comp bs cid hc g hres,
    ?_, ?_⟩
  · intro a b ra rb ha hb
    exact ⟨evaluate_guard_orG_eq cells rp pm a b comp ra rb ha hb,
      evaluate_guard_andG_eq cells rp pm a b comp ra rb ha hb⟩
  · intro n rn hn
    exact evaluate_guard_notG_eq cells rp pm n comp rn hn

/-- Witness for C5: over a map where port 0 reads 1 and port 1 is
undefined, `And(port 0, port 1)` and `Or(port 0, port 1)` both evaluate
to undefined — the defined-true left operand does not shortcut. -/
theorem guard_undefined_propagation_witness :
    (evaluate_guard (fun _ => .comp ⟨0, 1, 0, 0⟩ 0) (fun _ => none)
      (fun j => if j = 0 then some ⟨1, .assignW 0⟩ else none)
      (.andG (.port (.loc 0)) (.port (.loc 1))) 0 = .ok none) ∧
    (evaluate_guard (fun _ => .comp ⟨0, 1, 0, 0⟩ 0) (fun _ => none)
      (fun j => if j = 0 then some ⟨1, .assignW 0⟩ else none)
      (.orG (.port (.loc 0)) (.port (.loc 1))) 0 = .ok none) := by
  have h := guard_undefined_propagation (fun _ => .comp ⟨0, 1, 0, 0⟩ 0)
    (fun _ => none)
    (fun j => if j = 0 then some ⟨1, .assignW 0⟩ else none) 0
    ⟨0, 1, 0, 0⟩ 0 (.andG (.port (.loc 0)) (.port (.loc 1))) rfl
    (by
      intro p hp
      simp only [guardPorts, List.mem_append, List.mem_singleton] at hp
      rcases hp with hp | hp
      · subst hp
        exact ⟨0, rfl⟩
      · subst hp
        exact ⟨1, rfl⟩)
  obtain ⟨-, h2, -⟩ := h
  have h3 := h2 (.port (.loc 0)) (.port (.loc 1)) (some true) none rfl rfl
  exact ⟨h3.2, h3.1⟩

theorem updatePM_high_no_imp0 (pm : PortMap) (i p : Nat)
    (h : updatePM pm i (some ⟨1, .implicitW⟩) p = some ⟨0, .implicitW⟩) :
    pm p = some ⟨0, .implicitW⟩ := by
  by_cases hpi : p = i
  · rw [hpi, updatePM_same] at h
    injection h with h
    cases h
  · rw [updatePM_other pm i p _ hpi] at h
    exact h

theorem foldl_setDone_no_imp0 (l : List Nat) :
    ∀ (pm : PortMap) (p : Nat),
      (l.foldl (fun pm' q => updatePM pm' q (some ⟨1, .implicitW⟩)) pm) p =
        some ⟨0, .implicitW⟩ →
      pm p = some ⟨0, .implicitW⟩ := by
  induction l with
  | nil => intro pm p h; exact h
  | cons d rest ih =>
      intro pm p h
      rw [List.foldl_cons] at h
      exact updatePM_high_no_imp0 pm d p (ih _ p h)

theorem danglingDone_fold (dps : List Nat) :
    ∀ (pm0 : PortMap) (b0 : Bool),
      (∀ p, (dps.foldl
          (fun (st : PortMap × Bool) d =>
            if (st.1 d).isNone then
              (updatePM st.1 d (some ⟨0, .implicitW⟩), true)
            else st) (pm0, b0)).1 p = pm0 p ∨
        (p ∈ dps ∧ pm0 p = none ∧
          (dps.foldl
            (fun (st : PortMap × Bool) d =>
              if (st.1 d).isNone then
                (updatePM st.1 d (some ⟨0, .implicitW⟩), true)
              else st) (pm0, b0)).1 p = some ⟨0, .implicitW⟩)) ∧
      (∀ p, p ∈ dps → pm0 p = none →
        (dps.foldl
          (fun (st : PortMap × Bool) d =>
            if (st.1 d).isNone then
              (updatePM st.1 d (some ⟨0, .implicitW⟩), true)
            else st) (pm0, b0)).1 p = some ⟨0, .implicitW⟩ ∧
        (dps.foldl
          (fun (st : PortMap × Bool) d =>
            if (st.1 d).isNone then
              (updatePM st.1 d (some ⟨0, .implicitW⟩), true)
            else st) (pm0, b0)).2 = true) ∧
      (b0 = true →
        (dps.foldl
          (fun (st : PortMap × Bool) d =>
            if (st.1 d).isNone then
              (updatePM st.1 d (some ⟨0, .implicitW⟩), true)
            else st) (pm0, b0)).2 = true) := by
  induction dps with
  | nil =>
      intro pm0 b0
      refine ⟨fun p => Or.inl rfl, fun p hp => absurd hp (by simp), fun h => h⟩
  | cons d rest ih =>
      intro pm0 b0
      rw [List.foldl_cons]
      by_cases hd : (pm0 d).isNone
      · rw [if_pos hd]
        have hd' : pm0 d = none := by
          cases hmd : pm0 d with
          | none => rfl
          | some _ => rw [hmd] at hd; cases hd
        obtain ⟨ih1, ih2, ih3⟩ := ih (updatePM pm0 d (some ⟨0, .implicitW⟩))
          true
        refine ⟨?_, ?_, fun _ => ih3 rfl⟩
        · intro p
          rcases ih1 p with h1 | ⟨hmem, hval, himp⟩
          · by_cases hpd : p = d
            · subst hpd
              rw [updatePM_same] at h1
              exact Or.inr ⟨by simp, hd', h1⟩
            · rw [updatePM_other pm0 d p _ hpd] at h1
              exact Or.inl h1
          · by_cases hpd : p = d
            · subst hpd
              rw [updatePM_same] at hval
              cases hval
            · rw [updatePM_other pm0 d p _ hpd] at hval
              exact Or.inr ⟨List.mem_cons_of_mem d hmem, hval, himp⟩
        · intro p hp hval
          by_cases hpd : p = d
          · subst hpd
            refine ⟨?_, ih3 rfl⟩
            rcases ih1 p with h1 | ⟨_, hv, _⟩
            · rw [updatePM_same] at h1
              exact h1
            · rw [updatePM_same] at hv
              cases hv
          · have hp' : p ∈ rest := by
              rcases List.mem_cons.mp hp with h | h
              · exact absurd h hpd
              · exact h
            have hv' : updatePM pm0 d (some ⟨0, .implicitW⟩) p = none := by
              rw [updatePM_other pm0 d p _ hpd]
              exact hval
            exact ih2 p hp' hv'
      · rw [if_neg hd]
        have hd' : pm0 d ≠ none := by
          intro hcon
          rw [hcon] at hd
          exact hd (by simp)
        obtain ⟨ih1, ih2, ih3⟩ := ih pm0 b0
        refine ⟨?_, ?_, ih3⟩
        · intro p
          rcases ih1 p with h1 | ⟨hmem, hval, himp⟩
          · exact Or.inl h1
          · exact Or.inr ⟨List.mem_cons_of_mem d hmem, hval, himp⟩
        intro p hp hval
        by_cases hpd : p = d
        · subst hpd
          exact absurd hval hd'
        · have hp' : p ∈ rest := by
            rcases List.mem_cons.mp hp with h | h
            · exact absurd h hpd
            · exact h
          exact ih2 p hp' hval

theorem wroteAssign_imp0 {pm pm' : PortMap} (h : WroteAssign pm pm')
    (p : Nat) (hp : pm' p = some ⟨0, .implicitW⟩) :
    pm p = some ⟨0, .implicitW⟩ := by
  rcases h p with h1 | ⟨n, j, h1⟩
  · rw [← h1]
    exact hp
  · rw [h1] at hp
    injection hp with hp
    cases hp

theorem convergencePass_eq (cells : Nat → CellLedger)
    (rp : Nat → Option Nat) (ctx : SimCtx) (prims : Prims) (dps : List Nat)
    (bundle : List Sched) (pm : PortMap) (pm1 pm2 : PortMap)
    (ch1 chP : Bool)
    (hb : processBundle cells rp ctx bundle pm = .ok (pm1, ch1))
    (hc : prims.execComb pm1 = .ok (pm2, chP)) :
    convergencePass cells rp ctx prims dps bundle pm =
      (if (ch1 || chP) = true then .ok (pm2, true)
       else .ok (danglingDone dps pm2)) := by
  unfold convergencePass
  rw [hb, except_bind_ok]
  dsimp only
  rw [hc, except_bind_ok]

theorem convergencePass_imp0_only (cells : Nat → CellLedger)
    (rp : Nat → Option Nat) (ctx : SimCtx) (prims : Prims) (dps : List Nat)
    (bundle : List Sched) (pm pm' : PortMap) (ch : Bool)
    (hcomb : NoImplicitZeroComb prims)
    (h : convergencePass cells rp ctx prims dps bundle pm = .ok (pm', ch)) :
    ∀ p, pm' p = some ⟨0, .implicitW⟩ →
      pm p = some ⟨0, .implicitW⟩ ∨ p ∈ dps := by
  intro p hp
  unfold convergencePass at h
  cases hb : processBundle cells rp ctx bundle pm with
  | error e => rw [hb, except_bind_err] at h; cases h
  | ok pr1 =>
      rw [hb, except_bind_ok] at h
      obtain ⟨pm1, ch1⟩ := pr1
      dsimp only at h
      cases hc : prims.execComb pm1 with
      | error e => rw [hc, except_bind_err] at h; cases h
      | ok pr2 =>
          rw [hc, except_bind_ok] at h
          obtain ⟨pm2, chP⟩ := pr2
          dsimp only at h
          by_cases hch : (ch1 || chP) = true
          · rw [if_pos hch] at h
            injection h with h
            injection h with h1 h2
            subst h1
            left
            exact wroteAssign_imp0
              (processBundle_wroteAssign cells rp ctx bundle pm (pm1, ch1) hb)
              p (hcomb pm1 pm2 chP hc p hp)
          · rw [if_neg hch] at h
            injection h with h
            have hpm' : pm' = (danglingDone dps pm2).1 := by rw [h]
            rw [hpm'] at hp
            obtain ⟨d1, _, _⟩ := danglingDone_fold dps pm2 false
            rcases d1 p with h1 | ⟨hmem, _, _⟩
            · left
              have : pm2 p = some ⟨0, .implicitW⟩ := by
                unfold danglingDone at hp
                rw [hp] at h1
                exact h1.symm
              exact wroteAssign_imp0
                (processBundle_wroteAssign cells rp ctx bundle pm (pm1, ch1)
                  hb) p (hcomb pm1 pm2 chP hc p this)
            · right
              exact hmem

theorem convergencePass_dangling_only_when (cells : Nat → CellLedger)
    (rp : Nat → Option Nat) (ctx : SimCtx) (prims : Prims) (dps : List Nat)
    (bundle : List Sched) (pm pm' : PortMap) (ch : Bool)
    (hcomb : NoImplicitZeroComb prims)
    (h : convergencePass cells rp ctx prims dps bundle pm = .ok (pm', ch)) :
    ∀ p, pm' p = some ⟨0, .implicitW⟩ → pm p ≠ some ⟨0, .implicitW⟩ →
      p ∈ dps ∧ ch = true ∧ ∃ pm1 ch1 pm2 chP,
        processBundle cells rp ctx bundle pm = .ok (pm1, ch1) ∧
        prims.execComb pm1 = .ok (pm2, chP) ∧ (ch1 || chP) = false ∧
        pm2 p = none := by
  intro p hp hnot
  unfold convergencePass at h
  cases hb : processBundle cells rp ctx bundle pm with
  | error e => rw [hb, except_bind_err] at h; cases h
  | ok pr1 =>
      rw [hb, except_bind_ok] at h
      obtain ⟨pm1, ch1⟩ := pr1
      dsimp only at h
      cases hc : prims.execComb pm1 with
      | error e => rw [hc, except_bind_err] at h; cases h
      | ok pr2 =>
          rw [hc, except_bind_ok] at h
          obtain ⟨pm2, chP⟩ := pr2
          dsimp only at h
          by_cases hch : (ch1 || chP) = true
          · rw [if_pos hch] at h
            injection h with h
            injection h with h1 h2
            subst h1
            exact absurd (wroteAssign_imp0
              (processBundle_wroteAssign cells rp ctx bundle pm (pm1, ch1) hb)
              p (hcomb pm1 pm2 chP hc p hp)) hnot
          · rw [if_neg hch] at h
            injection h with h
            have hpm' : pm' = (danglingDone dps pm2).1 := by rw [h]
            have hch' : ch = (danglingDone dps pm2).2 := by rw [h]
            rw [hpm'] at hp
            obtain ⟨d1, d2, _⟩ := danglingDone_fold dps pm2 false
            rcases d1 p with h1 | ⟨hmem, hundef, _⟩
            · have hpm2 : pm2 p = some ⟨0, .implicitW⟩ := by
                unfold danglingDone at hp
                rw [hp] at h1
                exact h1.symm
              exact absurd (wroteAssign_imp0
                (processBundle_wroteAssign cells rp ctx bundle pm (pm1, ch1)
                  hb) p (hcomb pm1 pm2 chP hc p hpm2)) hnot
            · refine ⟨hmem, ?_, pm1, ch1, pm2, chP, rfl, hc, ?_, hundef⟩
              · rw [hch']
                exact (d2 p hmem hundef).2
              · cases hor : (ch1 || chP) with
                | false => rfl
                | true => exact absurd hor hch

theorem convergencePass_dangling_fires (cells : Nat → CellLedger)
    (rp : Nat → Option Nat) (ctx : SimCtx) (prims : Prims) (dps : List Nat)
    (bundle : List Sched) (pm pm1 pm2 : PortMap) (ch1 chP : Bool) (p : Nat)
    (hb : processBundle cells rp ctx bundle pm = .ok (pm1, ch1))
    (hc : prims.execComb pm1 = .ok (pm2, chP))
    (hno : (ch1 || chP) = false) (hp : p ∈ dps) (hundef : pm2 p = none) :
    ∃ pm', convergencePass cells rp ctx prims dps bundle pm =
      .ok (pm', true) ∧ pm' p = some ⟨0, .implicitW⟩ := by
  rw [convergencePass_eq cells rp ctx prims dps bundle pm pm1 pm2 ch1 chP
    hb hc]
  rw [if_neg (by rw [hno]; simp)]
  obtain ⟨_, d2, _⟩ := danglingDone_fold dps pm2 false
  obtain ⟨hval, hflag⟩ := d2 p hp hundef
  refine ⟨(danglingDone dps pm2).1, ?_, hval⟩
  have hflag' : (danglingDone dps pm2).2 = true := hflag
  rw [← hflag']

theorem simCombLoop_imp0 (cells : Nat → CellLedger)
    (rp : Nat → Option Nat) (ctx : SimCtx) (prims : Prims) (dps : List Nat)
    (bundle : List Sched) (hcomb : NoImplicitZeroComb prims) :
    ∀ (fuel : Nat) (pm pm' : PortMap),
      simCombLoop cells rp ctx prims dps bundle fuel pm = .ok pm' →
      ∀ p, pm' p = some ⟨0, .implicitW⟩ →
        pm p = some ⟨0, .implicitW⟩ ∨ p ∈ dps := by
  intro fuel
  induction fuel with
  | zero =>
      intro pm pm' h
      simp [simCombLoop] at h
  | succ f ih =>
      intro pm pm' h p hp
      unfold simCombLoop at h
      cases hcp : convergencePass cells rp ctx prims dps bundle pm with
      | error e => rw [hcp, except_bind_err] at h; cases h
      | ok pr =>
          rw [hcp, except_bind_ok] at h
          obtain ⟨pm'', ch⟩ := pr
          dsimp only at h
          cases ch with
          | true =>
              rw [if_pos rfl] at h
              rcases ih pm'' pm' h p hp with h1 | h1
              · exact convergencePass_imp0_only cells rp ctx prims dps bundle
                  pm pm'' true hcomb hcp p h1
              · exact Or.inr h1
          | false =>
              rw [if_neg (by simp)] at h
              injection h with h
              rw [← h] at hp
              exact convergencePass_imp0_only cells rp ctx prims dps bundle
                pm pm'' false hcomb hcp p hp

theorem simulate_combinational_imp0 (cells : Nat → CellLedger)
    (rp : Nat → Option Nat) (ctx : SimCtx) (prims : Prims) (fuel : Nat)
    (bundle : List Sched) (pm pm' : PortMap)
    (hcomb : NoImplicitZeroComb prims)
    (h : simulate_combinational cells rp ctx prims fuel bundle pm = .ok pm') :
    ∀ p, pm' p = some ⟨0, .implicitW⟩ →
      pm p = some ⟨0, .implicitW⟩ ∨ ∃ dps,
        done_ports_of cells bundle = .ok dps ∧ p ∈ dps := by
  intro p hp
  unfold simulate_combinational at h
  cases hdp : done_ports_of cells bundle with
  | error e => rw [hdp, except_bind_err] at h; cases h
  | ok dps =>
      rw [hdp, except_bind_ok] at h
      rcases simCombLoop_imp0 cells rp ctx prims dps bundle hcomb fuel pm pm'
        h p hp with h1 | h1
      · exact Or.inl h1
      · exact Or.inr ⟨dps, rfl, h1⟩

theorem set_root_go_high_no_imp0 (ctx : SimCtx) (cells : Nat → CellLedger)
    (pm pm' : PortMap) (h : set_root_go_high ctx cells pm = .ok pm') :
    ∀ p, pm' p = some ⟨0, .implicitW⟩ → pm p = some ⟨0, .implicitW⟩ := by
  intro p hp
  unfold set_root_go_high at h
  cases hu : unwrap_comp cells 0 with
  | error e => rw [hu, except_bind_err] at h; cases h
  | ok bc =>
      rw [hu, except_bind_ok] at h
      obtain ⟨bs, cid⟩ := bc
      dsimp only at h
      injection h with h
      rw [← h] at hp
      exact updatePM_high_no_imp0 pm _ p hp

theorem leafGoLoop_no_imp0 (M : Machine) :
    ∀ (ls : List ControlPoint) (pm : PortMap) (rc rp : Nat → Option Nat)
      (res : PortMap × (Nat → Option Nat) × (Nat → Option Nat)),
      leafGoLoop M ls pm rc rp = .ok res →
      ∀ p, res.1 p = some ⟨0, .implicitW⟩ → pm p = some ⟨0, .implicitW⟩ := by
  intro ls
  induction ls with
  | nil =>
      intro pm rc rp res h p hp
      unfold leafGoLoop at h
      injection h with h
      rw [← h] at hp
      exact hp
  | cons n rest ih =>
      intro pm rc rp res h p hp
      unfold leafGoLoop at h
      cases hctl : M.ctx.control n.node with
      | enable e =>
          simp only [hctl] at h
          cases hu : unwrap_comp M.cells n.comp with
          | error er => rw [hu, except_bind_err] at h; cases h
          | ok bc =>
              rw [hu, except_bind_ok] at h
              obtain ⟨bs, cid⟩ := bc
              dsimp only at h
              exact updatePM_high_no_imp0 pm _ p (ih _ _ _ res h p hp)
      | invoke i =>
          simp only [hctl] at h
          cases hg : get_global_port_idx M.cells rp i.go n.comp with
          | error er => rw [hg, except_bind_err] at h; cases h
          | ok goIdx =>
              rw [hg, except_bind_ok] at h
              cases hrc : intialize_ref_cells M.ctx M.cells rc rp n.comp i with
              | error er => rw [hrc, except_bind_err] at h; cases h
              | ok rcp =>
                  rw [hrc, except_bind_ok] at h
                  obtain ⟨rc', rp'⟩ := rcp
                  dsimp only at h
                  exact updatePM_high_no_imp0 pm _ p (ih _ _ _ res h p hp)
      | seq stms => simp only [hctl] at h; cases h
      | par stms => simp only [hctl] at h; cases h
      | ifC c cg t f => simp only [hctl] at h; cases h
      | whileC c cg b => simp only [hctl] at h; cases h
      | empty => simp only [hctl] at h; cases h

theorem step_imp0_only_dangling (M : Machine) (fuel : Nat) (env env' : Env)
    (hcomb : NoImplicitZeroComb M.prims)
    (hcycle : NoImplicitZeroCycle M.prims)
    (h : step M fuel env = .ok env') :
    ∀ p, env'.ports p = some ⟨0, .implicitW⟩ →
      ∃ retained st1 bundle dps,
        stepNodes M fuel env.pcVec
          ⟨env.ports, env.refCells, env.refPorts, env.parMap, env.withMap,
            [], [], []⟩ = .ok (retained, st1) ∧
        get_assignments M.ctx st1.leafNodes env.contAssigns st1.withMap =
          .ok bundle ∧
        done_ports_of M.cells bundle = .ok dps ∧ p ∈ dps := by
  intro p hp
  unfold step at h
  dsimp only at h
  cases hsn : stepNodes M fuel env.pcVec
      ⟨env.ports, env.refCells, env.refPorts, env.parMap, env.withMap,
        [], [], []⟩ with
  | error e => rw [hsn, except_bind_err] at h; cases h
  | ok pr =>
      rw [hsn, except_bind_ok] at h
      obtain ⟨retained, st1⟩ := pr
      dsimp only at h
      cases hrg : set_root_go_high M.ctx M.cells (fun _ => none) with
      | error e => rw [hrg, except_bind_err] at h; cases h
      | ok pm1 =>
          rw [hrg, except_bind_ok] at h
          cases hlg : leafGoLoop M st1.leafNodes
              (st1.setDone.foldl
                (fun pm q => updatePM pm q (some ⟨1, .implicitW⟩)) pm1)
              st1.refCells st1.refPorts with
          | error e => rw [hlg, except_bind_err] at h; cases h
          | ok tri =>
              rw [hlg, except_bind_ok] at h
              obtain ⟨pm3, rc, rp⟩ := tri
              dsimp only at h
              cases hga : get_assignments M.ctx st1.leafNodes env.contAssigns
                  st1.withMap with
              | error e => rw [hga, except_bind_err] at h; cases h
              | ok bundle =>
                  rw [hga, except_bind_ok] at h
                  cases hsim : simulate_combinational M.cells rp M.ctx
                      M.prims fuel bundle pm3 with
                  | error e => rw [hsim, except_bind_err] at h; cases h
                  | ok pm4 =>
                      rw [hsim, except_bind_ok] at h
                      cases hcy : M.prims.execCycle pm4 with
                      | error e => rw [hcy, except_bind_err] at h; cases h
                      | ok pm5 =>
                          rw [hcy, except_bind_ok] at h
                          injection h with h
                          have hports : env'.ports = pm5 := by rw [← h]
                          rw [hports] at hp
                          have hp4 : pm4 p = some ⟨0, .implicitW⟩ :=
                            hcycle pm4 pm5 hcy p hp
                          rcases simulate_combinational_imp0 M.cells rp M.ctx
                              M.prims fuel bundle pm3 pm4 hcomb hsim p hp4
                            with h3 | ⟨dps, hdps, hmem⟩
                          · exfalso
                            have h2 := leafGoLoop_no_imp0 M st1.leafNodes _
                              st1.refCells st1.refPorts (pm3, rc, rp) hlg p h3
                            have h1 := foldl_setDone_no_imp0 st1.setDone pm1
                              p h2
                            have h0 := set_root_go_high_no_imp0 M.ctx M.cells
                              (fun _ => none) pm1 hrg p h1
                            cases h0
                          · exact ⟨retained, st1, bundle, dps, rfl, hga,
                              hdps, hmem⟩

/-- Claim C4: a tracked interface `done` port is set to `Implicit(0)`
only by the dangling-`done` resolution, which runs only when a full pass
(assignments plus primitives) reported no change and the port is still
undefined; every such port is then set with the change flag raised so the
loop continues; and over a whole `step` (whose primitives never write
engine-implicit zeros) a port ending as `Implicit(0)` is necessarily a
tracked `done` port of that step's scheduled bundle. -/
theorem dangling_done_resolution (cells : Nat → CellLedger)
    (rp : Nat → Option Nat) (ctx : SimCtx) (prims : Prims) (dps : List Nat)
    (bundle : List Sched) (pm : PortMap) (M : Machine) (fuel : Nat)
    (env env' : Env) :
    (∀ pm' ch, NoImplicitZeroComb prims →
      convergencePass cells rp ctx prims dps bundle pm = .ok (pm', ch) →
      ∀ p, pm' p = some ⟨0, .implicitW⟩ → pm p ≠ some ⟨0, .implicitW⟩ →
        p ∈ dps ∧ ch = true ∧ ∃ pm1 ch1 pm2 chP,
          processBundle cells rp ctx bundle pm = .ok (pm1, ch1) ∧
          prims.execComb pm1 = .ok (pm2, chP) ∧ (ch1 || chP) = false ∧
          pm2 p = none) ∧
    (∀ pm1 pm2 ch1 chP p,
      processBundle cells rp ctx bundle pm = .ok (pm1, ch1) →
      prims.execComb pm1 = .ok (pm2, chP) → (ch1 || chP) = false →
      p ∈ dps → pm2 p = none →
      ∃ pm', convergencePass cells rp ctx prims dps bundle pm =
        .ok (pm', true) ∧ pm' p = some ⟨0, .implicitW⟩) ∧
    (NoImplicitZeroComb M.prims → NoImplicitZeroCycle M.prims →
      step M fuel env = .ok env' →
      ∀ p, env'.ports p = some ⟨0, .implicitW⟩ →
        ∃ retained st1 bundle' dps',
          stepNodes M fuel env.pcVec
            ⟨env.ports, env.refCells, env.refPorts, env.parMap, env.withMap,
              [], [], []⟩ = .ok (retained, st1) ∧
          get_assignments M.ctx st1.leafNodes env.contAssigns st1.withMap =
            .ok bundle' ∧
          done_ports_of M.cells bundle' = .ok dps' ∧ p ∈ dps') := by
  refine ⟨?_, ?_, ?_⟩
  · intro pm' ch hcomb h p hp hnot
    exact convergencePass_dangling_only_when cells rp ctx prims dps bundle
      pm pm' ch hcomb h p hp hnot
  · intro pm1 pm2 ch1 chP p hb hc hno hp hundef
    exact convergencePass_dangling_fires cells rp ctx prims dps bundle pm
      pm1 pm2 ch1 chP p hb hc hno hp hundef
  · intro hcomb hcycle h p hp
    exact step_imp0_only_dangling M fuel env env' hcomb hcycle h p hp

/-- Witness for C4: with one scheduled entry whose interface `done` port
is global port 1, no assignments, and inert primitives, the converged
pass sets port 1 to `Implicit(0)` and reports a change so the loop
continues. -/
theorem dangling_done_resolution_witness :
    (1 : Nat) ∈ [1] ∧
    (fun (_ : Nat) => (none : Option AssignedValue)) 1 = none ∧
    ∃ pm', convergencePass (fun _ => .comp ⟨0, 1, 0, 0⟩ 0) (fun _ => none)
        ⟨fun _ => ⟨.loc 0, .loc 1, .tru⟩, fun _ => ⟨0, 1, []⟩, fun _ => [],
          fun _ => ⟨0, 1, none⟩, fun _ => .empty, fun _ => none,
          fun _ => [], fun _ => [], fun _ _ => 0, fun _ _ => .loc 0⟩
        ⟨fun pm => .ok (pm, false), fun pm => .ok pm⟩ [1]
        [⟨0, [], some (0, 1)⟩] (fun _ => none) =
      .ok (pm', true) ∧ pm' 1 = some ⟨0, .implicitW⟩ := by
  refine ⟨by decide, rfl, ?_⟩
  exact (dangling_done_resolution (fun _ => .comp ⟨0, 1, 0, 0⟩ 0)
    (fun _ => none)
    ⟨fun _ => ⟨.loc 0, .loc 1, .tru⟩, fun _ => ⟨0, 1, []⟩, fun _ => [],
      fun _ => ⟨0, 1, none⟩, fun _ => .empty, fun _ => none,
          fun _ => [], fun _ => [], fun _ _ => 0, fun _ _ => .loc 0⟩
    ⟨fun pm => .ok (pm, false), fun pm => .ok pm⟩ [1]
    [⟨0, [], some (0, 1)⟩] (fun _ => none)
    ⟨⟨fun _ => ⟨.loc 0, .loc 1, .tru⟩, fun _ => ⟨0, 1, []⟩, fun _ => [],
        fun _ => ⟨0, 1, none⟩, fun _ => .empty, fun _ => none,
          fun _ => [], fun _ => [], fun _ _ => 0, fun _ _ => .loc 0⟩,
      fun _ => .comp ⟨0, 1, 0, 0⟩ 0,
      ⟨fun pm => .ok (pm, false), fun pm => .ok pm⟩⟩
    0 ⟨fun _ => none, fun _ => none, fun _ => none, [], [], [], []⟩
    ⟨fun _ => none, fun _ => none, fun _ => none, [], [], [], []⟩).2.1
    (fun _ => none) (fun _ => none) false false 1 rfl rfl rfl (by decide) rfl

/-- Claim C8: `run_program` performs no step when the root `done` already
reads high (returning the unchanged environment), returns `Ok` exactly in
states whose root `done` reads high, propagates any step error
immediately, and treats an undefined root `done` as not high. -/
theorem run_program_root_done (M : Machine) (sfuel : Nat) :
    (∀ fuel env, is_done M env = .ok true →
      run_program M sfuel fuel env = .ok env) ∧
    (∀ fuel env env', run_program M sfuel fuel env = .ok env' →
      is_done M env' = .ok true) ∧
    (∀ fuel env e, is_done M env = .ok false →
      step M sfuel env = .error e →
      run_program M sfuel (fuel + 1) env = .error e) ∧
    (∀ env rd, get_root_done M.ctx M.cells = .ok rd → env.ports rd = none →
      is_done M env = .ok false) := by
  refine ⟨?_, ?_, ?_, ?_⟩
  · intro fuel env hd
    cases fuel with
    | zero =>
        unfold run_program
        rw [hd, except_bind_ok]
        rw [if_pos rfl]
    | succ f =>
        unfold run_program
        rw [hd, except_bind_ok]
        rw [if_pos rfl]
  · intro fuel
    induction fuel with
    | zero =>
        intro env env' h
        unfold run_program at h
        cases hd : is_done M env with
        | error e => rw [hd, except_bind_err] at h; cases h
        | ok d =>
            rw [hd, except_bind_ok] at h
            cases d with
            | true =>
                rw [if_pos rfl] at h
                injection h with h
                rw [← h]
                exact hd
            | false =>
                rw [if_neg (by simp)] at h
                cases h
    | succ f ih =>
        intro env env' h
        unfold run_program at h
        cases hd : is_done M env with
        | error e => rw [hd, except_bind_err] at h; cases h
        | ok d =>
            rw [hd, except_bind_ok] at h
            cases d with
            | true =>
                rw [if_pos rfl] at h
                injection h with h
                rw [← h]
                exact hd
            | false =>
                rw [if_neg (by simp)] at h
                cases hs : step M sfuel env with
                | error e => rw [hs, except_bind_err] at h; cases h
                | ok env'' =>
                    rw [hs, except_bind_ok] at h
                    exact ih env'' env' h
  · intro fuel env e hd hs
    unfold run_program
    rw [hd, except_bind_ok]
    rw [if_neg (by simp)]
    rw [hs, except_bind_err]
  · intro env rd hrd hundef
    unfold is_done
    rw [hrd, except_bind_ok]
    rw [hundef]
    rfl

/-- Witness for C8: with the root `done` (global port 1) reading high,
`run_program` returns the environment unchanged without stepping; with an
all-undefined port map `is_done` reads false. -/
theorem run_program_root_done_witness :
    (is_done
      ⟨⟨fun _ => ⟨.loc 0, .loc 1, .tru⟩, fun _ => ⟨0, 1, []⟩, fun _ => [],
          fun _ => ⟨0, 1, none⟩, fun _ => .empty, fun _ => none,
          fun _ => [], fun _ => [], fun _ _ => 0, fun _ _ => .loc 0⟩,
        fun _ => .comp ⟨0, 1, 0, 0⟩ 0,
        ⟨fun pm => .ok (pm, false), fun pm => .ok pm⟩⟩
      ⟨fun j => if j = 1 then some ⟨1, .implicitW⟩ else none, fun _ => none,
        fun _ => none, [], [], [], []⟩ = .ok true) ∧
    (run_program
      ⟨⟨fun _ => ⟨.loc 0, .loc 1, .tru⟩, fun _ => ⟨0, 1, []⟩, fun _ => [],
          fun _ => ⟨0, 1, none⟩, fun _ => .empty, fun _ => none,
          fun _ => [], fun _ => [], fun _ _ => 0, fun _ _ => .loc 0⟩,
        fun _ => .comp ⟨0, 1, 0, 0⟩ 0,
        ⟨fun pm => .ok (pm, false), fun pm => .ok pm⟩⟩
      5 3
      ⟨fun j => if j = 1 then some ⟨1, .implicitW⟩ else none, fun _ => none,
        fun _ => none, [], [], [], []⟩ =
      .ok ⟨fun j => if j = 1 then some ⟨1, .implicitW⟩ else none,
        fun _ => none, fun _ => none, [], [], [], []⟩) ∧
    (is_done
      ⟨⟨fun _ => ⟨.loc 0, .loc 1, .tru⟩, fun _ => ⟨0, 1, []⟩, fun _ => [],
          fun _ => ⟨0, 1, none⟩, fun _ => .empty, fun _ => none,
          fun _ => [], fun _ => [], fun _ _ => 0, fun _ _ => .loc 0⟩,
        fun _ => .comp ⟨0, 1, 0, 0⟩ 0,
        ⟨fun pm => .ok (pm, false), fun pm => .ok pm⟩⟩
      ⟨fun _ => none, fun _ => none, fun _ => none, [], [], [], []⟩ =
      .ok false) := by
  refine ⟨rfl, ?_, ?_⟩
  · exact (run_program_root_done
      ⟨⟨fun _ => ⟨.loc 0, .loc 1, .tru⟩, fun _ => ⟨0, 1, []⟩, fun _ => [],
          fun _ => ⟨0, 1, none⟩, fun _ => .empty, fun _ => none,
          fun _ => [], fun _ => [], fun _ _ => 0, fun _ _ => .loc 0⟩,
        fun _ => .comp ⟨0, 1, 0, 0⟩ 0,
        ⟨fun pm => .ok (pm, false), fun pm => .ok pm⟩⟩ 5).1 3
      ⟨fun j => if j = 1 then some ⟨1, .implicitW⟩ else none, fun _ => none,
        fun _ => none, [], [], [], []⟩ rfl
  · exact (run_program_root_done
      ⟨⟨fun _ => ⟨.loc 0, .loc 1, .tru⟩, fun _ => ⟨0, 1, []⟩, fun _ => [],
          fun _ => ⟨0, 1, none⟩, fun _ => .empty, fun _ => none,
          fun _ => [], fun _ => [], fun _ _ => 0, fun _ _ => .loc 0⟩,
        fun _ => .comp ⟨0, 1, 0, 0⟩ 0,
        ⟨fun pm => .ok (pm, false), fun pm => .ok pm⟩⟩ 5).2.2.2
      ⟨fun _ => none, fun _ => none, fun _ => none, [], [], [], []⟩ 1 rfl rfl

/-- Amended claim C7: when `step` first visits a `par` control point with
more than 65,535 children (its component `go` high and `done` not high),
the u16 conversion of the child count panics; the overflow surfaces as a
panic, not as a categorized interpreter error returned in the `Result`. -/
theorem par_overflow_panics (M : Machine) (fuel : Nat) (st : StepSt)
    (node : ControlPoint) (bs : BaseIndices) (cid : Nat) (stms : List Nat)
    (hcell : M.cells node.comp = .comp bs cid)
    (hgo : (asBool (st.ports (bs.port + (M.ctx.comp cid).go))).getD false =
      true)
    (hdone : (asBool (st.ports (bs.port +
      (M.ctx.comp cid).done))).getD false = false)
    (hctl : M.ctx.control node.node = .par stms)
    (hfirst : alistLookup st.parMap node = none)
    (hlen : 65535 < stms.length) :
    stepNode M fuel st node = .error (.panicked .parOverflow) := by
  have hcg : get_comp_go M.ctx M.cells node.comp =
      .ok (bs.port + (M.ctx.comp cid).go) := by
    unfold get_comp_go unwrap_comp
    rw [hcell]
    rfl
  have hcd : get_comp_done M.ctx M.cells node.comp =
      .ok (bs.port + (M.ctx.comp cid).done) := by
    unfold get_comp_done unwrap_comp
    rw [hcell]
    rfl
  have harm : stepNodeArm M fuel st node =
      .error (.panicked .parOverflow) := by
    unfold stepNodeArm
    rw [hctl]
    dsimp only
    rw [hfirst]
    dsimp only
    rw [if_neg (by omega)]
  unfold stepNode
  rw [hcg, except_bind_ok, hcd, except_bind_ok]
  rw [if_neg (by rw [hgo, hdone]; simp)]
  rw [harm, except_bind_err]

/-- Counterexample for C7: a first visit to a `par` node with 65,536
children does not produce a returned, categorized error — it hits the
source's `.expect` panic on the u16 conversion (modelled as the
`parOverflow` panic), so the claim's "returned as a Result, like every
other error category" is false on the code. -/
theorem par_overflow_counterexample :
    stepNode
      ⟨⟨fun _ => ⟨.loc 0, .loc 1, .tru⟩, fun _ => ⟨0, 1, []⟩, fun _ => [],
          fun _ => ⟨0, 1, none⟩,
          fun _ => .par (List.replicate 65536 0), fun _ => none,
          fun _ => [], fun _ => [], fun _ _ => 0, fun _ _ => .loc 0⟩,
        fun _ => .comp ⟨0, 1, 0, 0⟩ 0,
        ⟨fun pm => .ok (pm, false), fun pm => .ok pm⟩⟩
      1
      ⟨fun j => if j = 0 then some ⟨1, .implicitW⟩ else none, fun _ => none,
        fun _ => none, [], [], [], [], []⟩
      ⟨0, 0⟩ = .error (.panicked .parOverflow) := by
  have hlen : (List.replicate 65536 (0 : Nat)).length = 65536 :=
    List.length_replicate 65536 0
  have harm : stepNodeArm
      ⟨⟨fun _ => ⟨.loc 0, .loc 1, .tru⟩, fun _ => ⟨0, 1, []⟩, fun _ => [],
          fun _ => ⟨0, 1, none⟩,
          fun _ => .par (List.replicate 65536 0), fun _ => none,
          fun _ => [], fun _ => [], fun _ _ => 0, fun _ _ => .loc 0⟩,
        fun _ => .comp ⟨0, 1, 0, 0⟩ 0,
        ⟨fun pm => .ok (pm, false), fun pm => .ok pm⟩⟩
      1
      ⟨fun j => if j = 0 then some ⟨1, .implicitW⟩ else none, fun _ => none,
        fun _ => none, [], [], [], [], []⟩
      ⟨0, 0⟩ = .error (.panicked .parOverflow) := by
    unfold stepNodeArm
    dsimp only
    rw [show alistLookup [] (⟨0, 0⟩ : ControlPoint) = none from rfl]
    dsimp only
    rw [if_neg (by rw [hlen]; omega)]
  unfold stepNode
  rw [show get_comp_go
      ⟨fun _ => ⟨.loc 0, .loc 1, .tru⟩, fun _ => ⟨0, 1, []⟩, fun _ => [],
        fun _ => ⟨0, 1, none⟩,
        fun _ => .par (List.replicate 65536 0), fun _ => none,
          fun _ => [], fun _ => [], fun _ _ => 0, fun _ _ => .loc 0⟩
      (fun _ => .comp ⟨0, 1, 0, 0⟩ 0) 0 = .ok 0 from rfl, except_bind_ok]
  rw [show get_comp_done
      ⟨fun _ => ⟨.loc 0, .loc 1, .tru⟩, fun _ => ⟨0, 1, []⟩, fun _ => [],
        fun _ => ⟨0, 1, none⟩,
        fun _ => .par (List.replicate 65536 0), fun _ => none,
          fun _ => [], fun _ => [], fun _ _ => 0, fun _ _ => .loc 0⟩
      (fun _ => .comp ⟨0, 1, 0, 0⟩ 0) 0 = .ok 1 from rfl, except_bind_ok]
  rw [if_neg (by simp [asBool])]
  rw [harm, except_bind_err]

/-- Witness for C7's amended theorem at the concrete 65,536-child `par`
node. -/
theorem par_overflow_panics_witness :
    65535 < (List.replicate 65536 (0 : Nat)).length ∧
    stepNode
      ⟨⟨fun _ => ⟨.loc 0, .loc 1, .tru⟩, fun _ => ⟨0, 1, []⟩, fun _ => [],
          fun _ => ⟨0, 1, none⟩,
          fun _ => .par (List.replicate 65536 0), fun _ => none,
          fun _ => [], fun _ => [], fun _ _ => 0, fun _ _ => .loc 0⟩,
        fun _ => .comp ⟨0, 1, 0, 0⟩ 0,
        ⟨fun pm => .ok (pm, false), fun pm => .ok pm⟩⟩
      2
      ⟨fun j => if j = 0 then some ⟨1, .implicitW⟩ else none, fun _ => none,
        fun _ => none, [], [], [], [], []⟩
      ⟨0, 0⟩ = .error (.panicked .parOverflow) := by
  constructor
  · rw [List.length_replicate]
    omega
  · exact par_overflow_panics
      ⟨⟨fun _ => ⟨.loc 0, .loc 1, .tru⟩, fun _ => ⟨0, 1, []⟩, fun _ => [],
          fun _ => ⟨0, 1, none⟩,
          fun _ => .par (List.replicate 65536 0), fun _ => none,
          fun _ => [], fun _ => [], fun _ _ => 0, fun _ _ => .loc 0⟩,
        fun _ => .comp ⟨0, 1, 0, 0⟩ 0,
        ⟨fun pm => .ok (pm, false), fun pm => .ok pm⟩⟩
      2
      ⟨fun j => if j = 0 then some ⟨1, .implicitW⟩ else none, fun _ => none,
        fun _ => none, [], [], [], [], []⟩
      ⟨0, 0⟩ ⟨0, 1, 0, 0⟩ 0 (List.replicate 65536 0) rfl rfl rfl rfl rfl
      (by rw [List.length_replicate]; omega)

theorem except_pure_bind {α β : Type} (a : α)
    (g : α → Except SimError β) :
    ((pure a : Except SimError α) >>= g) = g a := rfl

theorem stepNode_of_arm_retain (M : Machine) (fuel : Nat) (st : StepSt)
    (node : ControlPoint) (cgI cdI : Nat) (node' : ControlPoint)
    (st' : StepSt)
    (hcg : get_comp_go M.ctx M.cells node.comp = .ok cgI)
    (hcd : get_comp_done M.ctx M.cells node.comp = .ok cdI)
    (hgate1 : (asBool (st.ports cgI)).getD false = true)
    (hgate2 : (asBool (st.ports cdI)).getD false = false)
    (harm : stepNodeArm M fuel st node = .ok (node', true, st')) :
    stepNode M fuel st node = .ok (some node', st') := by
  unfold stepNode
  rw [hcg, except_bind_ok, hcd, except_bind_ok]
  rw [if_neg (by rw [hgate1, hgate2]; simp)]
  rw [harm, except_bind_ok]
  dsimp only
  rw [if_neg (by simp)]
  rw [if_pos rfl]

theorem stepNode_of_arm_error (M : Machine) (fuel : Nat) (st : StepSt)
    (node : ControlPoint) (cgI cdI : Nat) (e : SimError)
    (hcg : get_comp_go M.ctx M.cells node.comp = .ok cgI)
    (hcd : get_comp_done M.ctx M.cells node.comp = .ok cdI)
    (hgate1 : (asBool (st.ports cgI)).getD false = true)
    (hgate2 : (asBool (st.ports cdI)).getD false = false)
    (harm : stepNodeArm M fuel st node = .error e) :
    stepNode M fuel st node = .error e := by
  unfold stepNode
  rw [hcg, except_bind_ok, hcd, except_bind_ok]
  rw [if_neg (by rw [hgate1, hgate2]; simp)]
  rw [harm, except_bind_err]

theorem stepNodeArm_if_first (M : Machine) (fuel : Nat) (st : StepSt)
    (node : ControlPoint) (cp : PortRef) (cg tb fb : Nat) (pmC : PortMap)
    (b : Bool)
    (hctl : M.ctx.control node.node = .ifC cp (some cg) tb fb)
    (hfirst : alistContains st.withMap node = false)
    (hsim : simulate_combinational M.cells st.refPorts M.ctx M.prims fuel
      [⟨node.comp, M.ctx.combGroup cg, none⟩] st.ports = .ok pmC)
    (hread : read_cond_port M.cells st.refPorts pmC .ifCondUndefined cp
      node.comp = .ok b) :
    stepNodeArm M fuel st node =
      .ok ({ node with node := if b then tb else fb }, true,
        { st with
          withMap := alistInsert st.withMap node cg,
          ports := pmC }) := by
  unfold stepNodeArm
  rw [hctl]
  dsimp only
  rw [hfirst]
  rw [if_pos (by simp)]
  rw [hsim]
  dsimp only
  rw [except_pure_bind]
  rw [if_neg (by simp)]
  dsimp only
  rw [hread, except_bind_ok]

theorem stepNodeArm_if_first_error (M : Machine) (fuel : Nat) (st : StepSt)
    (node : ControlPoint) (cp : PortRef) (cg tb fb : Nat) (pmC : PortMap)
    (e : SimError)
    (hctl : M.ctx.control node.node = .ifC cp (some cg) tb fb)
    (hfirst : alistContains st.withMap node = false)
    (hsim : simulate_combinational M.cells st.refPorts M.ctx M.prims fuel
      [⟨node.comp, M.ctx.combGroup cg, none⟩] st.ports = .ok pmC)
    (hread : read_cond_port M.cells st.refPorts pmC .ifCondUndefined cp
      node.comp = .error e) :
    stepNodeArm M fuel st node = .error e := by
  unfold stepNodeArm
  rw [hctl]
  dsimp only
  rw [hfirst]
  rw [if_pos (by simp)]
  rw [hsim]
  dsimp only
  rw [except_pure_bind]
  rw [if_neg (by simp)]
  dsimp only
  rw [hread, except_bind_err]

theorem stepNodeArm_if_nogroup (M : Machine) (fuel : Nat) (st : StepSt)
    (node : ControlPoint) (cp : PortRef) (tb fb : Nat) (b : Bool)
    (hctl : M.ctx.control node.node = .ifC cp none tb fb)
    (hread : read_cond_port M.cells st.refPorts st.ports .ifCondUndefined cp
      node.comp = .ok b) :
    stepNodeArm M fuel st node =
      .ok ({ node with node := if b then tb else fb }, true, st) := by
  unfold stepNodeArm
  rw [hctl]
  dsimp only
  rw [except_pure_bind]
  rw [if_neg (by simp)]
  rw [hread, except_bind_ok]

theorem stepNodeArm_if_revisit (M : Machine) (fuel : Nat) (st : StepSt)
    (node : ControlPoint) (cp : PortRef) (cg tb fb nxt : Nat)
    (hctl : M.ctx.control node.node = .ifC cp (some cg) tb fb)
    (hfound : alistContains st.withMap node = true)
    (hnext : M.ctx.getNext node = some nxt) :
    stepNodeArm M fuel st node =
      .ok ({ node with node := nxt }, true,
        { st with withMap := alistRemove st.withMap node }) := by
  unfold stepNodeArm
  rw [hctl]
  dsimp only
  rw [hfound]
  rw [if_neg (by simp)]
  rw [except_pure_bind]
  rw [if_pos (by simp)]
  unfold mutate_into_next
  rw [hnext]

/-- Amended claim C6: advancing an If point whose component `go` is high
and `done` low behaves as follows. On a first visit with an attached
combinational group, the group is inserted into `with_map`, convergence
runs with just that group, the condition port is read off the converged
map (a panic if undefined), and the point moves to the selected branch —
the `with_map` entry is kept, not removed. With no attached group the
condition is read directly and the branch selected. The entry is removed
only on a later visit that finds the node in `with_map`, which advances
to the node's successor without re-reading the condition. -/
theorem if_node_advancement (M : Machine) (fuel : Nat) (st : StepSt)
    (node : ControlPoint) (bs : BaseIndices) (cid : Nat) (cp : PortRef)
    (tb fb : Nat)
    (hcell : M.cells node.comp = .comp bs cid)
    (hgo : (asBool (st.ports (bs.port + (M.ctx.comp cid).go))).getD false =
      true)
    (hdone : (asBool (st.ports (bs.port +
      (M.ctx.comp cid).done))).getD false = false) :
    (∀ cg pmC b, M.ctx.control node.node = .ifC cp (some cg) tb fb →
      alistContains st.withMap node = false →
      simulate_combinational M.cells st.refPorts M.ctx M.prims fuel
        [⟨node.comp, M.ctx.combGroup cg, none⟩] st.ports = .ok pmC →
      read_cond_port M.cells st.refPorts pmC .ifCondUndefined cp
        node.comp = .ok b →
      stepNode M fuel st node =
        .ok (some { node with node := if b then tb else fb },
          { st with
            withMap := alistInsert st.withMap node cg,
            ports := pmC })) ∧
    (∀ cg pmC e, M.ctx.control node.node = .ifC cp (some cg) tb fb →
      alistContains st.withMap node = false →
      simulate_combinational M.cells st.refPorts M.ctx M.prims fuel
        [⟨node.comp, M.ctx.combGroup cg, none⟩] st.ports = .ok pmC →
      read_cond_port M.cells st.refPorts pmC .ifCondUndefined cp
        node.comp = .error e →
      stepNode M fuel st node = .error e) ∧
    (∀ b, M.ctx.control node.node = .ifC cp none tb fb →
      read_cond_port M.cells st.refPorts st.ports .ifCondUndefined cp
        node.comp = .ok b →
      stepNode M fuel st node =
        .ok (some { node with node := if b then tb else fb }, st)) ∧
    (∀ cg nxt, M.ctx.control node.node = .ifC cp (some cg) tb fb →
      alistContains st.withMap node = true →
      M.ctx.getNext node = some nxt →
      stepNode M fuel st node =
        .ok (some { node with node := nxt },
          { st with withMap := alistRemove st.withMap node })) := by
  have hcg : get_comp_go M.ctx M.cells node.comp =
      .ok (bs.port + (M.ctx.comp cid).go) := by
    unfold get_comp_go unwrap_comp
    rw [hcell]
    rfl
  have hcd : get_comp_done M.ctx M.cells node.comp =
      .ok (bs.port + (M.ctx.comp cid).done) := by
    unfold get_comp_done unwrap_comp
    rw [hcell]
    rfl
  refine ⟨?_, ?_, ?_, ?_⟩
  · intro cg pmC b hctl hfirst hsim hread
    exact stepNode_of_arm_retain M fuel st node _ _ _ _ hcg hcd hgo hdone
      (stepNodeArm_if_first M fuel st node cp cg tb fb pmC b hctl hfirst
        hsim hread)
  · intro cg pmC e hctl hfirst hsim hread
    exact stepNode_of_arm_error M fuel st node _ _ e hcg hcd hgo hdone
      (stepNodeArm_if_first_error M fuel st node cp cg tb fb pmC e hctl
        hfirst hsim hread)
  · intro b hctl hread
    exact stepNode_of_arm_retain M fuel st node _ _ _ _ hcg hcd hgo hdone
      (stepNodeArm_if_nogroup M fuel st node cp tb fb b hctl hread)
  · intro cg nxt hctl hfound hnext
    exact stepNode_of_arm_retain M fuel st node _ _ _ _ hcg hcd hgo hdone
      (stepNodeArm_if_revisit M fuel st node cp cg tb fb nxt hctl hfound
        hnext)

/-- Counterexample for C6: on the branch-selecting first visit of an If
node carrying combinational group 7, the point moves to the true branch
(node 10) but the `with_map` entry for the node is still present
afterwards — the claim's "removes the with_map entry if one exists" on a
branch-selecting visit is false on the code. -/
theorem if_with_map_kept_counterexample :
    stepNodeKept (stepNode
      ⟨⟨fun _ => ⟨.loc 0, .loc 1, .tru⟩, fun _ => ⟨0, 1, []⟩, fun _ => [],
          fun _ => ⟨0, 1, none⟩,
          fun n => if n = 0 then .ifC (.loc 2) (some 7) 10 11 else .empty,
          fun _ => none,
          fun _ => [], fun _ => [], fun _ _ => 0, fun _ _ => .loc 0⟩,
        fun _ => .comp ⟨0, 1, 0, 0⟩ 0,
        ⟨fun pm => .ok (pm, false), fun pm => .ok pm⟩⟩
      1
      ⟨fun j => if j = 0 then some ⟨1, .implicitW⟩
          else if j = 2 then some ⟨1, .implicitW⟩ else none,
        fun _ => none, fun _ => none, [], [], [], [], []⟩
      ⟨0, 0⟩) = some ⟨0, 10⟩ ∧
    stepNodeWithLookup (stepNode
      ⟨⟨fun _ => ⟨.loc 0, .loc 1, .tru⟩, fun _ => ⟨0, 1, []⟩, fun _ => [],
          fun _ => ⟨0, 1, none⟩,
          fun n => if n = 0 then .ifC (.loc 2) (some 7) 10 11 else .empty,
          fun _ => none,
          fun _ => [], fun _ => [], fun _ _ => 0, fun _ _ => .loc 0⟩,
        fun _ => .comp ⟨0, 1, 0, 0⟩ 0,
        ⟨fun pm => .ok (pm, false), fun pm => .ok pm⟩⟩
      1
      ⟨fun j => if j = 0 then some ⟨1, .implicitW⟩
          else if j = 2 then some ⟨1, .implicitW⟩ else none,
        fun _ => none, fun _ => none, [], [], [], [], []⟩
      ⟨0, 0⟩) ⟨0, 0⟩ = some 7 := by
  exact ⟨rfl, rfl⟩

/-- Witness for C6's amended theorem: the concrete first visit selects
the true branch and keeps the freshly inserted `with_map` binding. -/
theorem if_node_advancement_witness :
    alistContains ([] : List (ControlPoint × Nat)) ⟨0, 0⟩ = false ∧
    stepNode
      ⟨⟨fun _ => ⟨.loc 0, .loc 1, .tru⟩, fun _ => ⟨0, 1, []⟩, fun _ => [],
          fun _ => ⟨0, 1, none⟩,
          fun n => if n = 0 then .ifC (.loc 2) (some 7) 10 11 else .empty,
          fun _ => none,
          fun _ => [], fun _ => [], fun _ _ => 0, fun _ _ => .loc 0⟩,
        fun _ => .comp ⟨0, 1, 0, 0⟩ 0,
        ⟨fun pm => .ok (pm, false), fun pm => .ok pm⟩⟩
      1
      ⟨fun j => if j = 0 then some ⟨1, .implicitW⟩
          else if j = 2 then some ⟨1, .implicitW⟩ else none,
        fun _ => none, fun _ => none, [], [], [], [], []⟩
      ⟨0, 0⟩ =
      .ok (some ⟨0, if true then 10 else 11⟩,
        ⟨fun j => if j = 0 then some ⟨1, .implicitW⟩
            else if j = 2 then some ⟨1, .implicitW⟩ else none,
          fun _ => none, fun _ => none, [],
          alistInsert [] ⟨0, 0⟩ 7, [], [], []⟩) := by
  constructor
  · rfl
  · exact (if_node_advancement
      ⟨⟨fun _ => ⟨.loc 0, .loc 1, .tru⟩, fun _ => ⟨0, 1, []⟩, fun _ => [],
          fun _ => ⟨0, 1, none⟩,
          fun n => if n = 0 then .ifC (.loc 2) (some 7) 10 11 else .empty,
          fun _ => none,
          fun _ => [], fun _ => [], fun _ _ => 0, fun _ _ => .loc 0⟩,
        fun _ => .comp ⟨0, 1, 0, 0⟩ 0,
        ⟨fun pm => .ok (pm, false), fun pm => .ok pm⟩⟩
      1
      ⟨fun j => if j = 0 then some ⟨1, .implicitW⟩
          else if j = 2 then some ⟨1, .implicitW⟩ else none,
        fun _ => none, fun _ => none, [], [], [], [], []⟩
      ⟨0, 0⟩ ⟨0, 1, 0, 0⟩ 0 (.loc 2) 10 11 rfl rfl rfl).1 7
      (fun j => if j = 0 then some ⟨1, .implicitW⟩
        else if j = 2 then some ⟨1, .implicitW⟩ else none)
      true rfl rfl rfl rfl

theorem prefix_get?_stable {l l' : List CellLedger} (h : l <+: l')
    {i : Nat} (hi : i < l.length) : l'.get? i = l.get? i := by
  obtain ⟨t, rfl⟩ := h
  exact List.get?_append hi

theorem get?_append_length (l : List CellLedger) (a : CellLedger) :
    (l ++ [a]).get? l.length = some a := by
  rw [List.get?_append_right (Nat.le_refl _)]
  simp

theorem basesAt_lt_length {st : LState} {comp : Nat} {b : BaseIndices}
    (hb : basesAt st comp = some b) : comp < st.cells.length := by
  unfold basesAt at hb
  cases hg : st.cells.get? comp with
  | none => rw [hg] at hb; cases hb
  | some cl =>
      by_contra hc
      rw [List.get?_eq_none.mpr (Nat.le_of_not_lt hc)] at hg
      cases hg

theorem basesAt_mono {st st' : LState} (h : st.cells <+: st'.cells)
    {comp : Nat} {b : BaseIndices} (hb : basesAt st comp = some b) :
    basesAt st' comp = some b := by
  have hlen : comp < st.cells.length := basesAt_lt_length hb
  unfold basesAt at hb ⊢
  rw [prefix_get?_stable h hlen]
  exact hb

theorem layoutSig_spec (b : BaseIndices) :
    ∀ (n off : Nat) (st : LState), st.ports = b.port + off →
      (layoutSig b n off st).2 = true ∧
      (layoutSig b n off st).1.ports = st.ports + n ∧
      (layoutSig b n off st).1.cells = st.cells ∧
      (layoutSig b n off st).1.refCells = st.refCells ∧
      (layoutSig b n off st).1.refPorts = st.refPorts ∧
      (layoutSig b n off st).1.pcCont = st.pcCont := by
  intro n
  induction n with
  | zero =>
      intro off st hp
      exact ⟨rfl, rfl, rfl, rfl, rfl, rfl⟩
  | succ m ih =>
      intro off st hp
      obtain ⟨h1, h2, h3, h4, h5, h6⟩ :=
        ih (off + 1) { st with ports := st.ports + 1 } (by dsimp; omega)
      unfold layoutSig
      dsimp only
      refine ⟨?_, ?_, h3, h4, h5, h6⟩
      · rw [h1]
        simp [hp]
      · rw [h2]
        dsimp
        omega

theorem layoutGroups_spec (b : BaseIndices) (nSig : Nat) :
    ∀ (flags : List Bool) (i : Nat) (st : LState),
      st.ports = b.port + nSig + 2 * i →
      (layoutGroups b nSig flags i st).2 = true ∧
      (layoutGroups b nSig flags i st).1.ports =
        st.ports + 2 * flags.length ∧
      (layoutGroups b nSig flags i st).1.cells = st.cells ∧
      (layoutGroups b nSig flags i st).1.refCells = st.refCells ∧
      (layoutGroups b nSig flags i st).1.refPorts = st.refPorts ∧
      (layoutGroups b nSig flags i st).1.pcCont = st.pcCont := by
  intro flags
  induction flags with
  | nil =>
      intro i st hp
      exact ⟨rfl, by simp [layoutGroups], rfl, rfl, rfl, rfl⟩
  | cons swap rest ih =>
      intro i st hp
      obtain ⟨h1, h2, h3, h4, h5, h6⟩ :=
        ih (i + 1) { st with ports := st.ports + 2 } (by dsimp; omega)
      cases swap with
      | false =>
          unfold layoutGroups
          dsimp only
          refine ⟨?_, ?_, h3, h4, h5, h6⟩
          · rw [h1]
            rw [if_pos (by omega)]
            simp only [Bool.and_true, Bool.and_eq_true, beq_iff_eq]
            constructor <;> omega
          · rw [h2]
            dsimp
            have hL : (false :: rest).length = rest.length + 1 := by simp
            omega
      | true =>
          unfold layoutGroups
          dsimp only
          refine ⟨?_, ?_, h3, h4, h5, h6⟩
          · rw [h1]
            rw [if_neg (by omega)]
            simp only [Bool.and_true, Bool.and_eq_true, beq_iff_eq]
            constructor <;> omega
          · rw [h2]
            dsimp
            have hL : (true :: rest).length = rest.length + 1 := by simp
            omega

theorem layoutPrimPorts_spec (comp : Nat) (b : BaseIndices) :
    ∀ (n off : Nat) (st : LState), basesAt st comp = some b →
      st.ports = b.port + off →
      (layoutPrimPorts comp n off st).2 = true ∧
      (layoutPrimPorts comp n off st).1.ports = st.ports + n ∧
      (layoutPrimPorts comp n off st).1.cells = st.cells ∧
      (layoutPrimPorts comp n off st).1.refCells = st.refCells ∧
      (layoutPrimPorts comp n off st).1.refPorts = st.refPorts ∧
      (layoutPrimPorts comp n off st).1.pcCont = st.pcCont := by
  intro n
  induction n with
  | zero =>
      intro off st hb hp
      exact ⟨rfl, rfl, rfl, rfl, rfl, rfl⟩
  | succ m ih =>
      intro off st hb hp
      have hb' : basesAt { st with ports := st.ports + 1 } comp = some b := hb
      obtain ⟨h1, h2, h3, h4, h5, h6⟩ :=
        ih (off + 1) { st with ports := st.ports + 1 } hb' (by dsimp; omega)
      unfold layoutPrimPorts
      dsimp only
      refine ⟨?_, ?_, h3, h4, h5, h6⟩
      · rw [h1, hb]
        simp [hp]
      · rw [h2]
        dsimp
        omega

theorem layoutRefPorts_spec (comp : Nat) (b : BaseIndices) :
    ∀ (n off : Nat) (st : LState), basesAt st comp = some b →
      st.refPorts = b.refPort + off →
      (layoutRefPorts comp n off st).2 = true ∧
      (layoutRefPorts comp n off st).1.refPorts = st.refPorts + n ∧
      (layoutRefPorts comp n off st).1.cells = st.cells ∧
      (layoutRefPorts comp n off st).1.refCells = st.refCells ∧
      (layoutRefPorts comp n off st).1.ports = st.ports ∧
      (layoutRefPorts comp n off st).1.pcCont = st.pcCont := by
  intro n
  induction n with
  | zero =>
      intro off st hb hp
      exact ⟨rfl, rfl, rfl, rfl, rfl, rfl⟩
  | succ m ih =>
      intro off st hb hp
      have hb' : basesAt { st with refPorts := st.refPorts + 1 } comp =
        some b := hb
      obtain ⟨h1, h2, h3, h4, h5, h6⟩ :=
        ih (off + 1) { st with refPorts := st.refPorts + 1 } hb'
          (by dsimp; omega)
      unfold layoutRefPorts
      dsimp only
      refine ⟨?_, ?_, h3, h4, h5, h6⟩
      · rw [h1, hb]
        simp [hp]
      · rw [h2]
        dsimp
        omega

theorem layoutRefList_spec (comp : Nat) (b : BaseIndices) :
    ∀ (rs : List Nat) (rpOff rcOff : Nat) (st : LState),
      basesAt st comp = some b →
      st.refPorts = b.refPort + rpOff →
      st.refCells = b.refCell + rcOff →
      (layoutRefList comp rs rpOff rcOff st).2 = true ∧
      (layoutRefList comp rs rpOff rcOff st).1.refPorts =
        st.refPorts + rs.sum ∧
      (layoutRefList comp rs rpOff rcOff st).1.refCells =
        st.refCells + rs.length ∧
      (layoutRefList comp rs rpOff rcOff st).1.cells = st.cells ∧
      (layoutRefList comp rs rpOff rcOff st).1.ports = st.ports ∧
      (layoutRefList comp rs rpOff rcOff st).1.pcCont = st.pcCont := by
  intro rs
  induction rs with
  | nil =>
      intro rpOff rcOff st hb hrp hrc
      exact ⟨rfl, by simp [layoutRefList], by simp [layoutRefList], rfl,
        rfl, rfl⟩
  | cons k rest ih =>
      intro rpOff rcOff st hb hrp hrc
      obtain ⟨p1, p2, p3, p4, p5, p6⟩ :=
        layoutRefPorts_spec comp b k rpOff st hb hrp
      have hbb : basesAt (layoutRefPorts comp k rpOff st).1 comp =
          some b := by
        unfold basesAt at hb ⊢
        rw [p3]
        exact hb
      have hb2 : basesAt { (layoutRefPorts comp k rpOff st).1 with
          refCells := (layoutRefPorts comp k rpOff st).1.refCells + 1 }
          comp = some b := hbb
      obtain ⟨r1, r2, r3, r4, r5, r6⟩ :=
        ih (rpOff + k) (rcOff + 1)
          { (layoutRefPorts comp k rpOff st).1 with
            refCells := (layoutRefPorts comp k rpOff st).1.refCells + 1 }
          hb2 (by dsimp; omega) (by dsimp; omega)
      have hsum : (k :: rest).sum = k + rest.sum := by simp
      have hlen : (k :: rest).length = rest.length + 1 := by simp
      unfold layoutRefList
      dsimp only
      refine ⟨?_, ?_, ?_, ?_, ?_, ?_⟩
      · rw [r1, p1, hbb]
        simp only [Bool.true_and, Bool.and_true, Bool.and_eq_true,
          beq_iff_eq]
        omega
      · rw [r2]
        dsimp
        omega
      · rw [r3]
        dsimp
        omega
      · rw [r4]
        dsimp
        exact p3
      · rw [r5]
        dsimp
        exact p5
      · rw [r6]
        dsimp
        exact p6

mutual

theorem layout_component_spec : (c : CompDef) → ∀ (comp : Nat) (st : LState)
    (b : BaseIndices),
    basesAt st comp = some b → st.ports = b.port →
    st.cells.length = b.cell → st.refCells = b.refCell →
    st.refPorts = b.refPort →
    (layout_component comp c st).2 = true ∧
    (layout_component comp c st).1.ports = st.ports + c.totalPorts ∧
    (layout_component comp c st).1.cells.length =
      st.cells.length + c.totalCells ∧
    (layout_component comp c st).1.refCells = st.refCells + c.totalRefCells ∧
    (layout_component comp c st).1.refPorts = st.refPorts + c.totalRefPorts ∧
    st.cells <+: (layout_component comp c st).1.cells
  | .mk nSig groups cellsL refCellsL hasCont => by
      intro comp st b hb hp hc hrc hrp
      unfold layout_component
      rw [hb]
      dsimp only
      set S0 : LState :=
        (if hasCont then { st with pcCont := st.pcCont ++ [comp] } else st)
        with hS0
      have hbIf : basesAt S0 comp = some b := by
        rw [hS0]
        cases hasCont <;> exact hb
      have hpIf : S0.ports = st.ports := by
        rw [hS0]
        cases hasCont <;> rfl
      have hcellsIf : S0.cells = st.cells := by
        rw [hS0]
        cases hasCont <;> rfl
      have hrcIf : S0.refCells = st.refCells := by
        rw [hS0]
        cases hasCont <;> rfl
      have hrpIf : S0.refPorts = st.refPorts := by
        rw [hS0]
        cases hasCont <;> rfl
      obtain ⟨s1, s2, s3, s4, s5, s6⟩ := layoutSig_spec b nSig 0 S0
        (by omega)
      set S1 : LState := (layoutSig b nSig 0 S0).1 with hS1
      obtain ⟨g1, g2, g3, g4, g5, g6⟩ := layoutGroups_spec b nSig groups 0 S1
        (by omega)
      set S2 : LState := (layoutGroups b nSig groups 0 S1).1 with hS2
      have hbG : basesAt S2 comp = some b := by
        unfold basesAt at hbIf ⊢
        rw [g3, s3]
        exact hbIf
      have hS2len : S2.cells.length = b.cell + 0 := by
        rw [g3, s3, hcellsIf]
        omega
      obtain ⟨l1, l2, l3, l4, l5, l6⟩ := layoutCellList_spec cellsL comp
        (nSig + 2 * groups.length) 0 S2 b hbG (by omega) hS2len
      set S3 : LState :=
        (layoutCellList comp cellsL (nSig + 2 * groups.length) 0 S2).1
        with hS3
      have hbL : basesAt S3 comp = some b := by
        refine basesAt_mono ?_ hbG
        exact l6
      obtain ⟨rl1, rl2, rl3, rl4, rl5, rl6⟩ := layoutRefList_spec comp b
        refCellsL (cellsRefPorts cellsL) (cellsRefCells cellsL) S3 hbL
        (by omega) (by omega)
      refine ⟨?_, ?_, ?_, ?_, ?_, ?_⟩
      · rw [s1, g1, l1, rl1]
        rfl
      · rw [rl5, l2, g2, s2, hpIf]
        unfold CompDef.totalPorts
        omega
      · have hrlc : (layoutRefList comp refCellsL (cellsRefPorts cellsL)
            (cellsRefCells cellsL) S3).1.cells.length =
            st.cells.length + cellsCells cellsL := by
          rw [rl4]
          rw [hS3] at l3
          rw [l3, g3, s3, hcellsIf]
        rw [hrlc]
        unfold CompDef.totalCells
        rfl
      · rw [rl3, l4, g4, s4, hrcIf]
        unfold CompDef.totalRefCells
        omega
      · rw [rl2, l5, g5, s5, hrpIf]
        unfold CompDef.totalRefPorts
        omega
      · rw [rl4]
        have hpre : S2.cells <+: S3.cells := l6
        have hS2c : S2.cells = st.cells := by
          rw [g3, s3, hcellsIf]
        rw [hS2c] at hpre
        rw [hS3] at hpre
        exact hpre
termination_by c => sizeOf c

theorem layoutCellList_spec : (cs : List CellProto) → ∀ (comp : Nat)
    (portOff cellOff : Nat) (st : LState) (b : BaseIndices),
    basesAt st comp = some b →
    st.ports = b.port + portOff →
    st.cells.length = b.cell + cellOff →
    (layoutCellList comp cs portOff cellOff st).2 = true ∧
    (layoutCellList comp cs portOff cellOff st).1.ports =
      st.ports + cellsPorts cs ∧
    (layoutCellList comp cs portOff cellOff st).1.cells.length =
      st.cells.length + cellsCells cs ∧
    (layoutCellList comp cs portOff cellOff st).1.refCells =
      st.refCells + cellsRefCells cs ∧
    (layoutCellList comp cs portOff cellOff st).1.refPorts =
      st.refPorts + cellsRefPorts cs ∧
    st.cells <+: (layoutCellList comp cs portOff cellOff st).1.cells
  | [] => by
      intro comp portOff cellOff st b hb hp hc
      refine ⟨?_, ?_, ?_, ?_, ?_, ?_⟩
      · simp only [layoutCellList]
      · simp only [layoutCellList, cellsPorts]
        omega
      · simp only [layoutCellList, cellsCells]
        omega
      · simp only [layoutCellList, cellsRefCells]
        omega
      · simp only [layoutCellList, cellsRefPorts]
        omega
      · simp only [layoutCellList]
        exact List.prefix_refl _
  | .primC n :: rest => by
      intro comp portOff cellOff st b hb hp hc
      obtain ⟨p1, p2, p3, p4, p5, p6⟩ :=
        layoutPrimPorts_spec comp b n portOff st hb hp
      have hb1 : basesAt { (layoutPrimPorts comp n portOff st).1 with
          cells := (layoutPrimPorts comp n portOff st).1.cells ++
            [.prim] } comp = some b := by
        refine basesAt_mono ?_ hb
        dsimp
        rw [p3]
        exact List.prefix_append _ _
      obtain ⟨r1, r2, r3, r4, r5, r6⟩ := layoutCellList_spec rest comp
        (portOff + n) (cellOff + 1)
        { (layoutPrimPorts comp n portOff st).1 with
          cells := (layoutPrimPorts comp n portOff st).1.cells ++ [.prim] }
        b hb1
        (by dsimp; rw [p2]; omega)
        (by dsimp; rw [List.length_append, p3]; dsimp; omega)
      unfold layoutCellList
      dsimp only
      refine ⟨?_, ?_, ?_, ?_, ?_, ?_⟩
      · rw [r1, p1, hb1]
        simp only [Bool.true_and, Bool.and_true, Bool.and_eq_true,
          beq_iff_eq]
        rw [p3]
        omega
      · rw [r2]
        dsimp
        rw [p2]
        have he : cellsPorts (.primC n :: rest) = n + cellsPorts rest := rfl
        omega
      · rw [r3]
        dsimp
        rw [List.length_append, p3]
        have he : cellsCells (.primC n :: rest) = 1 + cellsCells rest := rfl
        dsimp
        omega
      · rw [r4]
        dsimp
        rw [p4]
        have he : cellsRefCells (.primC n :: rest) = cellsRefCells rest :=
          rfl
        omega
      · rw [r5]
        dsimp
        rw [p5]
        have he : cellsRefPorts (.primC n :: rest) = cellsRefPorts rest :=
          rfl
        omega
      · have hpre1 : st.cells <+:
            ((layoutPrimPorts comp n portOff st).1.cells ++ [.prim]) := by
          rw [p3]
          exact List.prefix_append _ _
        have hpre2 := r6
        exact hpre1.trans hpre2
  | .sub c :: rest => by
      intro comp portOff cellOff st b hb hp hc
      have hbChild : basesAt
          { st with cells := st.cells ++ [new_comp 0 st] }
          st.cells.length =
          some ⟨st.ports, st.cells.length + 1, st.refCells, st.refPorts⟩ := by
        unfold basesAt
        dsimp
        rw [get?_append_length]
        rfl
      obtain ⟨c1, c2, c3, c4, c5, c6⟩ := layout_component_spec c
        st.cells.length { st with cells := st.cells ++ [new_comp 0 st] }
        ⟨st.ports, st.cells.length + 1, st.refCells, st.refPorts⟩
        hbChild rfl (by dsimp; rw [List.length_append]; rfl) rfl rfl
      have hb1 : basesAt
          { st with cells := st.cells ++ [new_comp 0 st] } comp = some b := by
        refine basesAt_mono ?_ hb
        exact List.prefix_append _ _
      have hb2 : basesAt (layout_component st.cells.length c
          { st with cells := st.cells ++ [new_comp 0 st] }).1 comp =
          some b := by
        refine basesAt_mono ?_ hb1
        exact c6
      obtain ⟨r1, r2, r3, r4, r5, r6⟩ := layoutCellList_spec rest comp
        (portOff + c.totalPorts) (cellOff + 1 + c.totalCells)
        (layout_component st.cells.length c
          { st with cells := st.cells ++ [new_comp 0 st] }).1 b hb2
        (by rw [c2]; dsimp; omega)
        (by rw [c3]; dsimp; rw [List.length_append]; dsimp; omega)
      unfold layoutCellList
      dsimp only
      refine ⟨?_, ?_, ?_, ?_, ?_, ?_⟩
      · rw [r1, c1, hb1]
        simp only [Bool.true_and, Bool.and_true, Bool.and_eq_true,
          beq_iff_eq]
        omega
      · rw [r2, c2]
        dsimp
        have he : cellsPorts (.sub c :: rest) =
          c.totalPorts + cellsPorts rest := rfl
        omega
      · rw [r3, c3]
        dsimp
        rw [List.length_append]
        have he : cellsCells (.sub c :: rest) =
          1 + c.totalCells + cellsCells rest := rfl
        dsimp
        omega
      · rw [r4, c4]
        dsimp
        have he : cellsRefCells (.sub c :: rest) =
          c.totalRefCells + cellsRefCells rest := rfl
        omega
      · rw [r5, c5]
        dsimp
        have he : cellsRefPorts (.sub c :: rest) =
          c.totalRefPorts + cellsRefPorts rest := rfl
        omega
      · have hpre1 : st.cells <+: st.cells ++ [new_comp 0 st] :=
          List.prefix_append _ _
        have hpre2 : ({ st with cells := st.cells ++ [new_comp 0 st] } :
            LState).cells <+: (layout_component st.cells.length c
            { st with cells := st.cells ++ [new_comp 0 st] }).1.cells := c6
        exact (hpre1.trans hpre2).trans r6
termination_by cs => sizeOf cs

end

/-- Claim C9: `layout_component` assigns global indices in layout order so
that every global index it hands out equals the owning component's
recorded base index plus the index's local offset within that component;
consequently building a fresh environment from any component definition
satisfies every one of the source's `debug_assert_eq!` layout checks
(signature ports, group go/done ports, primitive cell ports, ref cells
and ref ports, recursively through subcomponents). -/
theorem layout_base_plus_local (c : CompDef) : (envNew c).2 = true :=
  (layout_component_spec c 0 ⟨0, [new_comp 0 ⟨0, [], 0, 0, []⟩], 0, 0, []⟩
    ⟨0, 1, 0, 0⟩ rfl rfl rfl rfl rfl).1
